import Mathlib

/-!
# Verification of the Slick reader / translator against its specification

This file gives a shallow embedding, in Lean 4, of the parts of the Slick
source-to-Go translator that the specification claims talk about:

* the symbol interner and `Gensym` (`lib/runtime.go`),
* the pair/list library's `Equal` (`list` package),
* the reader's scanning machinery: `NextRune`, `NewReader`, `SkipSpace`,
  the standard reader-macro table, `readNumber`, `readIdentifier`,
  `readSymbol`, `blockCommentMacro` and the main `Read` loop
  (`reader/reader.go`),
* the package resolver (`EncloseSymbol`, `ResolveSymbol`) and the
  import/use-declaration compilation that inserts into its two maps,
* the translator's error recorder `compiler.error` with its bailout
  behaviour, and `Compile`'s recovery of that bailout,
* the top-level declaration dispatcher `compileDecl` with its `splice`
  expansion.

Go `interface{}` trees become inductive types, Go maps become association
lists with update semantics, pointer identity for pairs becomes explicit
addresses into a store, and Go loops become fuel-indexed recursions that
return `Option`/`Except` so that running out of fuel is observable and never
silently misreported.  Machine integers are modelled as `Nat`/`Int` with
explicit reduction modulo `2 ^ 64` where the source uses `int64`.
Functions from the Go standard library that the source calls
(`path.Base`, `strconv.ParseFloat`, `(*big.Int).SetString`,
`unicode/utf8.DecodeRune`, decimal rendering by `fmt`) are modelled from
their documented behaviour; each such model is marked in its doc comment.
-/

namespace Slick

/-! ## Decimal rendering, a model of fmt's `%v` for integers

`fmt.Sprintf("%v", n)` renders an integer in decimal, with a leading `-`
for negative values.  We build it from `Nat.digits` and prove it injective;
injectivity is what makes gensym identifiers and coined package aliases
pairwise distinct. -/

/-- The character for a single decimal digit `d < 10`. -/
def digitChar (d : Nat) : Char := Char.ofNat (48 + d)

/-- Decimal rendering of a natural number (model of fmt's rendering). -/
def natToString (n : Nat) : String :=
  if n = 0 then "0" else ⟨((Nat.digits 10 n).reverse.map digitChar)⟩

/-- Decimal rendering of an integer, with a sign (model of fmt's `%v` for
`int64` values). -/
def intRepr (i : Int) : String :=
  if i < 0 then "-" ++ natToString i.natAbs else natToString i.toNat

theorem digitChar_toNat : ∀ d : Nat, d < 10 → (digitChar d).toNat = 48 + d := by
  decide

theorem digitChar_inj {d e : Nat} (hd : d < 10) (he : e < 10)
    (h : digitChar d = digitChar e) : d = e := by
  have h1 := digitChar_toNat d hd
  have h2 := digitChar_toNat e he
  rw [h] at h1
  omega

theorem map_digitChar_inj : ∀ {l₁ l₂ : List Nat}, (∀ d ∈ l₁, d < 10) →
    (∀ d ∈ l₂, d < 10) → l₁.map digitChar = l₂.map digitChar → l₁ = l₂ := by
  intro l₁
  induction l₁ with
  | nil => intro l₂ _ _ h; cases l₂ <;> simp_all
  | cons a t ih =>
    intro l₂ h₁ h₂ h
    cases l₂ with
    | nil => simp_all
    | cons b t₂ =>
      simp only [List.map_cons, List.cons.injEq] at h
      have ha : a = b := digitChar_inj (h₁ a (by simp)) (h₂ b (by simp)) h.1
      have ht : t = t₂ := ih (fun d hd => h₁ d (by simp [hd]))
        (fun d hd => h₂ d (by simp [hd])) h.2
      rw [ha, ht]

theorem natToString_inj : Function.Injective natToString := by
  intro m n h
  by_cases hm : m = 0 <;> by_cases hn : n = 0
  · omega
  · exfalso
    have hdata : (natToString m).data = (natToString n).data := by rw [h]
    simp only [natToString, hm, if_pos, if_neg hn] at hdata
    have : (Nat.digits 10 n).reverse.map digitChar = [digitChar 0] := by
      simpa [digitChar] using hdata.symm
    have : (Nat.digits 10 n).reverse = [0] :=
      map_digitChar_inj
        (fun d hd => Nat.digits_lt_base (by norm_num)
          (by simpa using List.mem_reverse.mp hd))
        (by simp) (by simpa using this)
    have hdig : Nat.digits 10 n = [0] := by
      have := congrArg List.reverse this; simpa using this
    have := Nat.ofDigits_digits 10 n
    rw [hdig] at this
    simp [Nat.ofDigits] at this
    exact hn this.symm
  · exfalso
    have hdata : (natToString m).data = (natToString n).data := by rw [h]
    simp only [natToString, hn, if_pos, if_neg hm] at hdata
    have : (Nat.digits 10 m).reverse.map digitChar = [digitChar 0] := by
      simpa [digitChar] using hdata
    have : (Nat.digits 10 m).reverse = [0] :=
      map_digitChar_inj
        (fun d hd => Nat.digits_lt_base (by norm_num)
          (by simpa using List.mem_reverse.mp hd))
        (by simp) (by simpa using this)
    have hdig : Nat.digits 10 m = [0] := by
      have := congrArg List.reverse this; simpa using this
    have := Nat.ofDigits_digits 10 m
    rw [hdig] at this
    simp [Nat.ofDigits] at this
    exact hm this.symm
  · have hdata : (natToString m).data = (natToString n).data := by rw [h]
    simp only [natToString, if_neg hm, if_neg hn] at hdata
    have : (Nat.digits 10 m).reverse = (Nat.digits 10 n).reverse :=
      map_digitChar_inj
        (fun d hd => Nat.digits_lt_base (by norm_num)
          (by simpa using List.mem_reverse.mp hd))
        (fun d hd => Nat.digits_lt_base (by norm_num)
          (by simpa using List.mem_reverse.mp hd))
        hdata
    have hdig : Nat.digits 10 m = Nat.digits 10 n := by
      have := congrArg List.reverse this; simpa using this
    have h1 := Nat.ofDigits_digits 10 m
    have h2 := Nat.ofDigits_digits 10 n
    rw [hdig] at h1
    omega

theorem natToString_head_digit (n : Nat) :
    ∃ c l, (natToString n).data = c :: l ∧ 48 ≤ c.toNat ∧ c.toNat ≤ 57 := by
  by_cases hn : n = 0
  · refine ⟨'0', [], ?_⟩
    simp [natToString, hn]
  · have hne : Nat.digits 10 n ≠ [] := Nat.digits_ne_nil_iff_ne_zero.mpr hn
    have hrev : (Nat.digits 10 n).reverse ≠ [] := by
      simpa using hne
    obtain ⟨d, t, ht⟩ := List.exists_cons_of_ne_nil hrev
    have hd : d < 10 := Nat.digits_lt_base (by norm_num)
      (by
        have : d ∈ (Nat.digits 10 n).reverse := by rw [ht]; simp
        simpa using this)
    refine ⟨digitChar d, t.map digitChar, ?_, ?_, ?_⟩
    · simp [natToString, hn, ht]
    · rw [digitChar_toNat d hd]; omega
    · rw [digitChar_toNat d hd]; omega

theorem string_append_data (a b : String) : (a ++ b).data = a.data ++ b.data :=
  String.data_append a b

theorem string_append_left_cancel {p a b : String} (h : p ++ a = p ++ b) :
    a = b := by
  have : (p ++ a).data = (p ++ b).data := by rw [h]
  rw [string_append_data, string_append_data] at this
  have h2 := List.append_cancel_left this
  cases a; cases b; exact congrArg String.mk h2

theorem intRepr_inj : Function.Injective intRepr := by
  intro i j h
  by_cases hi : i < 0 <;> by_cases hj : j < 0
  · simp only [intRepr, if_pos hi, if_pos hj] at h
    have := natToString_inj (string_append_left_cancel h)
    omega
  · exfalso
    simp only [intRepr, if_pos hi, if_neg hj] at h
    obtain ⟨c, l, hc, hge, _⟩ := natToString_head_digit i.natAbs
    have hdata : ('-' :: (natToString i.natAbs).data) = (natToString j.toNat).data := by
      have := congrArg String.data h
      rwa [string_append_data] at this
    obtain ⟨c₂, l₂, hc₂, hge₂, hle₂⟩ := natToString_head_digit j.toNat
    rw [hc₂] at hdata
    have : '-' = c₂ := by simpa using congrArg (List.headD · ' ') hdata
    have : (45 : Nat) = c₂.toNat := by rw [← this]; rfl
    omega
  · exfalso
    simp only [intRepr, if_neg hi, if_pos hj] at h
    obtain ⟨c₂, l₂, hc₂, hge₂, hle₂⟩ := natToString_head_digit i.toNat
    have hdata : (natToString i.toNat).data = ('-' :: (natToString j.natAbs).data) := by
      have := congrArg String.data h
      rwa [string_append_data] at this
    rw [hc₂] at hdata
    have : c₂ = '-' := by simpa using congrArg (List.headD · ' ') hdata
    have : c₂.toNat = (45 : Nat) := by rw [this]; rfl
    omega
  · simp only [intRepr, if_neg hi, if_neg hj] at h
    have := natToString_inj h
    omega

/-! ## Symbols and the interner (`lib/runtime.go`)

A Go `*lib.Symbol` is an interned handle: `Intern` guarantees that two
symbols with equal `(Package, Identifier)` components are the identical
pointer, so handle identity coincides with componentwise equality.  We
therefore model a symbol handle directly by its components; `=` on the
model is exactly pointer equality on interned handles. -/

structure Symbol where
  Package : String
  Identifier : String
deriving DecidableEq

/-- `lib.Intern`: returns the canonical handle for `(pkg, ident)`. -/
def Intern (pkg ident : String) : Symbol := ⟨pkg, ident⟩

/-! ## `lib.Gensym`

```go
var gensymCounter int64

func Gensym(prefix string) *Symbol {
    ncounter := atomic.AddInt64(&gensymCounter, 1)
    if prefix == "" {
        return Intern("", fmt.Sprintf("_g%v", ncounter))
    }
    if prefix[0] == '_' {
        return Intern("", fmt.Sprintf("%v%v", prefix, ncounter))
    }
    return Intern("", fmt.Sprintf("_%v%v", prefix, ncounter))
}
```

The counter is an `int64`; `atomic.AddInt64` wraps around on overflow, so
we carry the counter as its 64-bit two's-complement bit pattern (a `Nat`
below `2 ^ 64`) and render the signed value the way `fmt` does. -/

/-- Signed interpretation of a 64-bit two's-complement bit pattern. -/
def int64OfBits (b : Nat) : Int :=
  if b < 2 ^ 63 then (b : Int) else (b : Int) - 2 ^ 64

/-- Model of Go's `strings.HasPrefix` (and of the byte test `s[0] == c`
for a one-byte ASCII needle): a character-level prefix test.  For an
ASCII needle the byte-level and character-level tests agree, because a
UTF-8 continuation or leader byte of a multi-byte character never equals
an ASCII byte. -/
def strHasPrefix (s p : String) : Bool :=
  p.data.isPrefixOf s.data

/-- The identifier `Gensym` builds once the incremented counter has the
given bit pattern `cv`; `fmt.Sprintf` concatenates the decimal rendering
of the signed counter value. -/
def gensymIdent (pre : String) (cv : Nat) : String :=
  let n := intRepr (int64OfBits cv)
  if pre = "" then "_g" ++ n
  else if strHasPrefix pre "_" then pre ++ n
  else "_" ++ pre ++ n

/-- `lib.Gensym`, acting on the explicit counter state: returns the fresh
symbol and the updated counter bit pattern. -/
def Gensym (pre : String) (counter : Nat) : Symbol × Nat :=
  let ncounter := (counter + 1) % 2 ^ 64
  (Intern "" (gensymIdent pre ncounter), ncounter)

/-- `n` successive calls of `Gensym pre`, starting from counter state `c`,
in call order. -/
def gensymCalls (pre : String) (c : Nat) : Nat → List Symbol
  | 0 => []
  | n + 1 =>
    let r := Gensym pre c
    r.1 :: gensymCalls pre r.2 n

theorem gensymCalls_length (pre : String) (c n : Nat) :
    (gensymCalls pre c n).length = n := by
  induction n generalizing c with
  | zero => rfl
  | succ n ih => simp [gensymCalls, ih]

theorem gensymCalls_get? (pre : String) (c n i : Nat) (h : i < n) :
    (gensymCalls pre c n).get? i =
      some (Intern "" (gensymIdent pre ((c + i + 1) % 2 ^ 64))) := by
  induction n generalizing c i with
  | zero => omega
  | succ n ih =>
    cases i with
    | zero => simp [gensymCalls, Gensym]
    | succ i =>
      have hi : i < n := by omega
      have := ih ((c + 1) % 2 ^ 64) i hi
      simp only [gensymCalls, Gensym, List.get?]
      rw [this]
      have harith : ((c + 1) % 2 ^ 64 + i + 1) % 2 ^ 64 = (c + (i + 1) + 1) % 2 ^ 64 := by
        conv_lhs => rw [Nat.add_assoc, Nat.mod_add_mod]
        ring_nf
      rw [harith]

theorem int64OfBits_inj {a b : Nat} (ha : a < 2 ^ 64) (hb : b < 2 ^ 64)
    (h : int64OfBits a = int64OfBits b) : a = b := by
  simp only [int64OfBits] at h
  split at h <;> split at h <;> omega

theorem gensymIdent_inj {pre : String} {a b : Nat} (ha : a < 2 ^ 64)
    (hb : b < 2 ^ 64) (h : gensymIdent pre a = gensymIdent pre b) : a = b := by
  have hrepr : intRepr (int64OfBits a) = intRepr (int64OfBits b) := by
    simp only [gensymIdent] at h
    split at h
    · exact string_append_left_cancel h
    · split at h
      · exact string_append_left_cancel h
      · exact string_append_left_cancel h
  exact int64OfBits_inj ha hb (intRepr_inj hrepr)

/-- The condition under which `readSymbol` in `reader/reader.go` rejects
an identifier read from user source:
`(pkg != "_") && strings.HasPrefix(pkg, "_")`. -/
def readerRejectsIdent (s : String) : Bool :=
  (s != "_") && strHasPrefix s "_"

theorem strHasPrefix_underscore {s : String} :
    strHasPrefix s "_" = true ↔ ∃ t, s.data = '_' :: t := by
  constructor
  · intro h
    simp only [strHasPrefix] at h
    have : ("_").data <+: s.data := List.isPrefixOf_iff_prefix.mp h
    obtain ⟨t, ht⟩ := this
    exact ⟨t, by simpa using ht.symm⟩
  · rintro ⟨t, ht⟩
    simp [strHasPrefix, ht, List.isPrefixOf]

theorem intRepr_ne_nil (i : Int) : (intRepr i).data ≠ [] := by
  simp only [intRepr]
  split
  · rw [string_append_data]
    obtain ⟨c, l, hc, -, -⟩ := natToString_head_digit i.natAbs
    simp [hc]
  · obtain ⟨c, l, hc, -, -⟩ := natToString_head_digit i.toNat
    simp [hc]

theorem gensymIdent_shape (pre : String) (cv : Nat) :
    ∃ t, (gensymIdent pre cv).data = '_' :: t ∧ t ≠ [] := by
  simp only [gensymIdent]
  split
  · refine ⟨'g' :: (intRepr (int64OfBits cv)).data, ?_, by simp⟩
    rw [string_append_data]; rfl
  · split
    · rename_i hpre
      obtain ⟨t, ht⟩ := strHasPrefix_underscore.mp hpre
      refine ⟨t ++ (intRepr (int64OfBits cv)).data, ?_, ?_⟩
      · rw [string_append_data, ht]; rfl
      · intro h
        exact intRepr_ne_nil (int64OfBits cv) (by simpa using (List.append_eq_nil.mp h).2)
    · refine ⟨pre.data ++ (intRepr (int64OfBits cv)).data, ?_, ?_⟩
      · rw [string_append_data, string_append_data]; rfl
      · intro h
        exact intRepr_ne_nil (int64OfBits cv) (by simpa using (List.append_eq_nil.mp h).2)

theorem gensymIdent_rejected (pre : String) (cv : Nat) :
    readerRejectsIdent (gensymIdent pre cv) = true := by
  obtain ⟨t, ht, htne⟩ := gensymIdent_shape pre cv
  simp only [readerRejectsIdent, Bool.and_eq_true]
  constructor
  · simp only [bne_iff_ne, ne_eq]
    intro h
    have : (gensymIdent pre cv).data = ("_").data := by rw [h]
    rw [ht] at this
    simp at this
    exact htne this
  · exact strHasPrefix_underscore.mpr ⟨t, ht⟩

theorem gensymCalls_mem (pre : String) (c n : Nat) {s : Symbol}
    (h : s ∈ gensymCalls pre c n) : ∃ cv, s = Intern "" (gensymIdent pre cv) := by
  induction n generalizing c with
  | zero => simp [gensymCalls] at h
  | succ n ih =>
    simp only [gensymCalls, List.mem_cons] at h
    rcases h with h | h
    · exact ⟨(c + 1) % 2 ^ 64, h⟩
    · exact ih _ h

theorem gensymCalls_nodup (pre : String) (c n : Nat) (hn : n ≤ 2 ^ 64) :
    (gensymCalls pre c n).Nodup := by
  rw [List.nodup_iff_get?_ne_get?]
  intro i j hij hj h
  rw [gensymCalls_length] at hj
  have hi : i < n := by omega
  rw [gensymCalls_get? pre c n i hi, gensymCalls_get? pre c n j hj] at h
  have hident : gensymIdent pre ((c + i + 1) % 2 ^ 64) =
      gensymIdent pre ((c + j + 1) % 2 ^ 64) := by
    have := Option.some.inj h
    simpa [Intern, Symbol.mk.injEq] using this
  have := gensymIdent_inj (Nat.mod_lt _ (by positivity)) (Nat.mod_lt _ (by positivity)) hident
  omega

/-- C7, counterexample: the gensym counter is an `int64` and
`atomic.AddInt64` wraps around, so `2 ^ 64 + 1` calls with the same prefix
do NOT return pairwise distinct symbols: the first call and the
`2 ^ 64 + 1`-st call both return the symbol `_g1`.  This refutes the
claim's universally quantified distinctness ("for every n >= 0"). -/
theorem gensym_wrap_counterexample :
    (gensymCalls "" 0 (2 ^ 64 + 1)).get? 0 = (gensymCalls "" 0 (2 ^ 64 + 1)).get? (2 ^ 64) ∧
    ¬ (gensymCalls "" 0 (2 ^ 64 + 1)).Nodup := by
  have h0 : (gensymCalls "" 0 (2 ^ 64 + 1)).get? 0 =
      some (Intern "" (gensymIdent "" ((0 + 0 + 1) % 2 ^ 64))) :=
    gensymCalls_get? "" 0 (2 ^ 64 + 1) 0 (by omega)
  have h1 : (gensymCalls "" 0 (2 ^ 64 + 1)).get? (2 ^ 64) =
      some (Intern "" (gensymIdent "" ((0 + 2 ^ 64 + 1) % 2 ^ 64))) :=
    gensymCalls_get? "" 0 (2 ^ 64 + 1) (2 ^ 64) (by omega)
  have harith : ((0 : Nat) + 0 + 1) % 2 ^ 64 = (0 + 2 ^ 64 + 1) % 2 ^ 64 := by
    norm_num
  have heq : (gensymCalls "" 0 (2 ^ 64 + 1)).get? 0 =
      (gensymCalls "" 0 (2 ^ 64 + 1)).get? (2 ^ 64) := by
    rw [h0, h1, harith]
  refine ⟨heq, fun hnd => ?_⟩
  rw [List.nodup_iff_get?_ne_get?] at hnd
  exact hnd 0 (2 ^ 64) (by positivity)
    (by rw [gensymCalls_length]; omega) heq

/-- C7 (amended: distinctness holds for up to `2 ^ 64` calls, the counter
being a wrapping `int64`): every call of `Gensym prefix` returns a symbol
in the empty (local) package whose identifier is `"_g" + N` when the prefix
is empty, `prefix + N` when the prefix already starts with an underscore,
and `"_" + prefix + N` otherwise, where `N` renders the wrapped counter;
for every `n ≤ 2 ^ 64`, `n` calls with the same prefix return `n` pairwise
distinct symbols, each with an identifier that begins with an underscore,
is longer than one rune, and is rejected by the reader's
reserved-underscore test. -/
theorem gensym_distinct_reserved (pre : String) (c n : Nat) (hn : n ≤ 2 ^ 64) :
    (gensymCalls pre c n).Nodup ∧
    (∀ i, i < n →
      (gensymCalls pre c n).get? i = some (Intern ""
        (if pre = "" then "_g" ++ intRepr (int64OfBits ((c + i + 1) % 2 ^ 64))
         else if strHasPrefix pre "_" then
           pre ++ intRepr (int64OfBits ((c + i + 1) % 2 ^ 64))
         else "_" ++ pre ++ intRepr (int64OfBits ((c + i + 1) % 2 ^ 64))))) ∧
    (∀ s ∈ gensymCalls pre c n, s.Package = "" ∧ 1 < s.Identifier.data.length ∧
      (∃ t, s.Identifier.data = '_' :: t) ∧
      readerRejectsIdent s.Identifier = true) := by
  refine ⟨gensymCalls_nodup pre c n hn, ?_, ?_⟩
  · intro i hi
    rw [gensymCalls_get? pre c n i hi]
    rfl
  · intro s hs
    obtain ⟨cv, rfl⟩ := gensymCalls_mem pre c n hs
    obtain ⟨t, ht, htne⟩ := gensymIdent_shape pre cv
    refine ⟨rfl, ?_, ⟨t, ht⟩, gensymIdent_rejected pre cv⟩
    rw [show (Intern "" (gensymIdent pre cv)).Identifier = gensymIdent pre cv from rfl, ht]
    cases t with
    | nil => exact absurd rfl htne
    | cons a t => simp

/-- Witness for `gensym_distinct_reserved` at prefix `"x"`, initial counter
`0` and `n = 2`. -/
theorem gensym_distinct_reserved_witness :
    2 ≤ 2 ^ 64 ∧
    ((gensymCalls "x" 0 2).Nodup ∧
    (∀ i, i < 2 →
      (gensymCalls "x" 0 2).get? i = some (Intern ""
        (if "x" = "" then "_g" ++ intRepr (int64OfBits ((0 + i + 1) % 2 ^ 64))
         else if strHasPrefix "x" "_" then
           "x" ++ intRepr (int64OfBits ((0 + i + 1) % 2 ^ 64))
         else "_" ++ "x" ++ intRepr (int64OfBits ((0 + i + 1) % 2 ^ 64))))) ∧
    (∀ s ∈ gensymCalls "x" 0 2, s.Package = "" ∧ 1 < s.Identifier.data.length ∧
      (∃ t, s.Identifier.data = '_' :: t) ∧
      readerRejectsIdent s.Identifier = true)) :=
  ⟨by norm_num, gensym_distinct_reserved "x" 0 2 (by norm_num)⟩

/-! ## The pair/list library: `list.Equal`

A Go `*list.Pair` is a pointer; `Car`/`Cdr` hold `interface{}` values.  We
model pointer identity with explicit addresses into a store: `pairRef a`
is a non-nil `*Pair` whose fields live at address `a`, `nilPair` is the
typed nil `(*Pair)(nil)` (the empty list `list.Nil()`).  Leaves carry the
Go dynamic-type/value pairs that matter for `==`: interned symbol handles
(whose identity coincides with componentwise equality), `*big.Int`
pointers (compared by address), and strings/runes/floats (compared by
value, as Go's `==` does; NaN floats are outside the model). -/

inductive SVal where
  | pairRef (a : Nat)
  | nilPair
  | symRef (s : Symbol)
  | intRef (a : Nat)
  | strVal (s : String)
  | runeVal (c : Int)
  | floatVal (q : ℚ)
deriving DecidableEq

/-- The store mapping each pair address to its `(Car, Cdr)` fields. -/
def Store := List (SVal × SVal)

/-- Go interface equality `x == y` on modelled values: equal dynamic types
and equal values, where the value of a pointer is its address. -/
def goEq (x y : SVal) : Bool := decide (x = y)

/-- Whether a value has dynamic type `*list.Pair`
(i.e. `x.(*Pair)` succeeds). -/
def isPairB : SVal → Bool
  | SVal.pairRef _ => true
  | SVal.nilPair => true
  | _ => false

/-- The `Car` field of the pair at address `a` (callers only use valid
addresses; out-of-range reads default to nil fields). -/
def carOf (st : Store) (a : Nat) : SVal :=
  ((List.get? st a).getD (SVal.nilPair, SVal.nilPair)).1

/-- The `Cdr` field of the pair at address `a`. -/
def cdrOf (st : Store) (a : Nat) : SVal :=
  ((List.get? st a).getD (SVal.nilPair, SVal.nilPair)).2

/-- `list.Equal` (`part_002` of the list package), with the unbounded Go
loop made fuel-indexed; `none` means the fuel ran out (the Go loop
diverges only on circular lists):

```go
func Equal(x, y interface{}) bool {
    for {
        pair1, ok := x.(*Pair)
        if !ok { return x == y }
        pair2, ok := y.(*Pair)
        if !ok { return false }
        if pair1 == pair2 { return true }
        if pair1 == nil || pair2 == nil { return false }
        if pair1.Car != pair2.Car { return false }
        x = pair1.Cdr
        y = pair2.Cdr
    }
}
``` -/
def listEqual (st : Store) : Nat → SVal → SVal → Option Bool
  | 0, _, _ => none
  | fuel + 1, SVal.pairRef a, SVal.pairRef b =>
    if a = b then some true
    else if goEq (carOf st a) (carOf st b) then
      listEqual st fuel (cdrOf st a) (cdrOf st b)
    else some false
  | _ + 1, SVal.nilPair, SVal.nilPair => some true
  | _ + 1, SVal.pairRef _, SVal.nilPair => some false
  | _ + 1, SVal.nilPair, SVal.pairRef _ => some false
  | _ + 1, SVal.pairRef _, _ => some false
  | _ + 1, SVal.nilPair, _ => some false
  | _ + 1, x, y => some (goEq x y)

/-- The claim's notion of equality: structural through `Car` and `Cdr`,
with leaf (non-pair) values compared by handle identity. -/
inductive StructEq (st : Store) : SVal → SVal → Prop where
  | leaf {x y : SVal} : isPairB x = false → isPairB y = false →
      goEq x y = true → StructEq st x y
  | nilNil : StructEq st SVal.nilPair SVal.nilPair
  | cons {a b : Nat} : StructEq st (carOf st a) (carOf st b) →
      StructEq st (cdrOf st a) (cdrOf st b) →
      StructEq st (SVal.pairRef a) (SVal.pairRef b)

/-- Proper lists in a store: nil-terminated `Cdr` chains. -/
inductive ProperList (st : Store) : SVal → Prop where
  | nil : ProperList st SVal.nilPair
  | cons {a : Nat} : ProperList st (cdrOf st a) →
      ProperList st (SVal.pairRef a)

/-- The store for the counterexample: two copies of the one-element list
`(a)` at addresses 0 and 1 (with `a` the same interned symbol), and the
one-element lists `((a))` at addresses 2 and 3 wrapping each copy. -/
def c3Store : Store :=
  [(SVal.symRef (Intern "" "a"), SVal.nilPair),
   (SVal.symRef (Intern "" "a"), SVal.nilPair),
   (SVal.pairRef 0, SVal.nilPair),
   (SVal.pairRef 1, SVal.nilPair)]

/-- C3, counterexample: `list.Equal` compares `Car` fields with Go `==`
(handle identity for pairs) and recurses only through `Cdr`, so the two
distinct proper lists `((a))` at addresses 2 and 3 — whose single elements
are structurally equal one-element lists — compare UNequal, refuting the
claimed if-and-only-if with structural equality through `Car` and `Cdr`. -/
theorem equal_structural_counterexample :
    ProperList c3Store (SVal.pairRef 2) ∧
    ProperList c3Store (SVal.pairRef 3) ∧
    SVal.pairRef 2 ≠ SVal.pairRef 3 ∧
    StructEq c3Store (SVal.pairRef 2) (SVal.pairRef 3) ∧
    listEqual c3Store 10 (SVal.pairRef 2) (SVal.pairRef 3) = some false := by
  refine ⟨?_, ?_, by simp, ?_, by decide⟩
  · exact ProperList.cons (a := 2) ProperList.nil
  · exact ProperList.cons (a := 3) ProperList.nil
  · refine StructEq.cons (a := 2) (b := 3) ?_ ?_
    · refine StructEq.cons (a := 0) (b := 1) ?_ ?_
      · exact StructEq.leaf (by decide) (by decide) (by decide)
      · exact StructEq.nilNil
    · exact StructEq.nilNil

/-- The equality `list.Equal` actually computes: recursion through `Cdr`
only, with `Car` fields compared by Go's `==`; identical pair handles
(including `nil == nil`) short-circuit to true, and a non-pair first
argument is compared to the second by `==`. -/
inductive CdrEq (st : Store) : SVal → SVal → Prop where
  | leaf {x y : SVal} : isPairB x = false → goEq x y = true → CdrEq st x y
  | refl {x y : SVal} : isPairB x = true → isPairB y = true →
      goEq x y = true → CdrEq st x y
  | cons {a b : Nat} : a ≠ b → goEq (carOf st a) (carOf st b) = true →
      CdrEq st (cdrOf st a) (cdrOf st b) →
      CdrEq st (SVal.pairRef a) (SVal.pairRef b)

/-- C3 (amended): whenever `list.Equal` terminates (any fuel at which the
modelled loop returns a result), it returns true if and only if its
arguments are related by `Cdr`-spine equality with `Car` fields compared
by handle identity — NOT by full structural equality through `Car`. -/
theorem cdrEq_leaf_iff {st : Store} {x y : SVal} (hx : isPairB x = false) :
    goEq x y = true ↔ CdrEq st x y := by
  constructor
  · exact fun hg => CdrEq.leaf hx hg
  · intro hc
    cases hc with
    | leaf _ hg => exact hg
    | refl hpx _ _ => rw [hpx] at hx; exact absurd hx (by simp)
    | cons _ _ _ => simp [isPairB] at hx

theorem not_cdrEq_pair_nonpair {st : Store} {x y : SVal}
    (hx : isPairB x = true) (hy : isPairB y = false) : ¬ CdrEq st x y := by
  intro hc
  cases hc with
  | leaf hpx _ => rw [hpx] at hx; exact absurd hx (by simp)
  | refl _ hpy _ => rw [hpy] at hy; exact absurd hy (by simp)
  | cons _ _ _ => simp [isPairB] at hy

theorem not_cdrEq_pair_nil {st : Store} {a : Nat} :
    ¬ CdrEq st (SVal.pairRef a) SVal.nilPair := by
  intro hc
  cases hc with
  | leaf hpx _ => simp [isPairB] at hpx
  | refl _ _ hg => simp [goEq] at hg

theorem not_cdrEq_nil_pair {st : Store} {b : Nat} :
    ¬ CdrEq st SVal.nilPair (SVal.pairRef b) := by
  intro hc
  cases hc with
  | leaf hpx _ => simp [isPairB] at hpx
  | refl _ _ hg => simp [goEq] at hg

/-- C3 (amended): whenever `list.Equal` terminates (any fuel at which the
modelled loop returns a result), it returns true if and only if its
arguments are related by `Cdr`-spine equality with `Car` fields compared
by handle identity — NOT by full structural equality through `Car`. -/
theorem equal_iff_cdr_spine (st : Store) (fuel : Nat) (x y : SVal) (r : Bool)
    (h : listEqual st fuel x y = some r) : r = true ↔ CdrEq st x y := by
  induction fuel generalizing x y r with
  | zero => simp [listEqual] at h
  | succ fuel ih =>
    cases x with
    | pairRef a =>
      cases y with
      | pairRef b =>
        simp only [listEqual] at h
        by_cases hab : a = b
        · subst hab
          rw [if_pos rfl] at h
          have hr : r = true := (Option.some.inj h).symm
          subst hr
          simp only [true_iff]
          exact CdrEq.refl (by simp [isPairB]) (by simp [isPairB]) (by simp [goEq])
        · rw [if_neg hab] at h
          by_cases hcar : goEq (carOf st a) (carOf st b) = true
          · rw [if_pos hcar] at h
            have htail := ih _ _ _ h
            constructor
            · exact fun hrt => CdrEq.cons hab hcar (htail.mp hrt)
            · intro hc
              cases hc with
              | leaf hpx _ => simp [isPairB] at hpx
              | refl _ _ hg => exact absurd (by simpa [goEq] using hg) hab
              | cons _ _ ht => exact htail.mpr ht
          · rw [if_neg hcar] at h
            have hr : r = false := (Option.some.inj h).symm
            subst hr
            simp only [Bool.false_eq_true, false_iff]
            intro hc
            cases hc with
            | leaf hpx _ => simp [isPairB] at hpx
            | refl _ _ hg => exact absurd (by simpa [goEq] using hg) hab
            | cons _ hg _ => exact absurd hg hcar
      | nilPair =>
        simp only [listEqual] at h
        have hr : r = false := (Option.some.inj h).symm
        subst hr
        simp only [Bool.false_eq_true, false_iff]
        exact not_cdrEq_pair_nil
      | symRef s =>
        simp only [listEqual] at h
        have hr : r = false := (Option.some.inj h).symm
        subst hr
        simp only [Bool.false_eq_true, false_iff]
        exact not_cdrEq_pair_nonpair rfl rfl
      | intRef c =>
        simp only [listEqual] at h
        have hr : r = false := (Option.some.inj h).symm
        subst hr
        simp only [Bool.false_eq_true, false_iff]
        exact not_cdrEq_pair_nonpair rfl rfl
      | strVal s =>
        simp only [listEqual] at h
        have hr : r = false := (Option.some.inj h).symm
        subst hr
        simp only [Bool.false_eq_true, false_iff]
        exact not_cdrEq_pair_nonpair rfl rfl
      | runeVal c =>
        simp only [listEqual] at h
        have hr : r = false := (Option.some.inj h).symm
        subst hr
        simp only [Bool.false_eq_true, false_iff]
        exact not_cdrEq_pair_nonpair rfl rfl
      | floatVal q =>
        simp only [listEqual] at h
        have hr : r = false := (Option.some.inj h).symm
        subst hr
        simp only [Bool.false_eq_true, false_iff]
        exact not_cdrEq_pair_nonpair rfl rfl
    | nilPair =>
      cases y with
      | pairRef b =>
        simp only [listEqual] at h
        have hr : r = false := (Option.some.inj h).symm
        subst hr
        simp only [Bool.false_eq_true, false_iff]
        exact not_cdrEq_nil_pair
      | nilPair =>
        simp only [listEqual] at h
        have hr : r = true := (Option.some.inj h).symm
        subst hr
        simp only [true_iff]
        exact CdrEq.refl rfl rfl (by simp [goEq])
      | symRef s =>
        simp only [listEqual] at h
        have hr : r = false := (Option.some.inj h).symm
        subst hr
        simp only [Bool.false_eq_true, false_iff]
        exact not_cdrEq_pair_nonpair rfl rfl
      | intRef c =>
        simp only [listEqual] at h
        have hr : r = false := (Option.some.inj h).symm
        subst hr
        simp only [Bool.false_eq_true, false_iff]
        exact not_cdrEq_pair_nonpair rfl rfl
      | strVal s =>
        simp only [listEqual] at h
        have hr : r = false := (Option.some.inj h).symm
        subst hr
        simp only [Bool.false_eq_true, false_iff]
        exact not_cdrEq_pair_nonpair rfl rfl
      | runeVal c =>
        simp only [listEqual] at h
        have hr : r = false := (Option.some.inj h).symm
        subst hr
        simp only [Bool.false_eq_true, false_iff]
        exact not_cdrEq_pair_nonpair rfl rfl
      | floatVal q =>
        simp only [listEqual] at h
        have hr : r = false := (Option.some.inj h).symm
        subst hr
        simp only [Bool.false_eq_true, false_iff]
        exact not_cdrEq_pair_nonpair rfl rfl
    | symRef s =>
      simp only [listEqual] at h
      have hr : r = goEq (SVal.symRef s) y := (Option.some.inj h).symm
      rw [hr]
      exact cdrEq_leaf_iff rfl
    | intRef c =>
      simp only [listEqual] at h
      have hr : r = goEq (SVal.intRef c) y := (Option.some.inj h).symm
      rw [hr]
      exact cdrEq_leaf_iff rfl
    | strVal s =>
      simp only [listEqual] at h
      have hr : r = goEq (SVal.strVal s) y := (Option.some.inj h).symm
      rw [hr]
      exact cdrEq_leaf_iff rfl
    | runeVal c =>
      simp only [listEqual] at h
      have hr : r = goEq (SVal.runeVal c) y := (Option.some.inj h).symm
      rw [hr]
      exact cdrEq_leaf_iff rfl
    | floatVal q =>
      simp only [listEqual] at h
      have hr : r = goEq (SVal.floatVal q) y := (Option.some.inj h).symm
      rw [hr]
      exact cdrEq_leaf_iff rfl

/-- Witness for `equal_iff_cdr_spine`: on the concrete store of the
counterexample, comparing the list at address 2 with itself. -/
theorem equal_iff_cdr_spine_witness :
    listEqual c3Store 10 (SVal.pairRef 2) (SVal.pairRef 2) = some true ∧
    (true = true ↔ CdrEq c3Store (SVal.pairRef 2) (SVal.pairRef 2)) :=
  ⟨by decide, equal_iff_cdr_spine c3Store 10 (SVal.pairRef 2) (SVal.pairRef 2)
    true (by decide)⟩

/-! ## The package resolver (`reader/reader.go`, `PackageResolver`)

Go maps `map[string]string` become association lists with update
semantics (`mapSet` replaces an existing binding for the key, otherwise
appends). -/

/-- A `map[string]string`. -/
def SMap := List (String × String)

/-- Map lookup `v, ok := m[k]`. -/
def mapGet (m : SMap) (k : String) : Option String :=
  (m.find? (fun p => p.1 == k)).map (fun p => p.2)

/-- Map update `m[k] = v`. -/
def mapSet (m : SMap) (k v : String) : SMap :=
  match m with
  | [] => [(k, v)]
  | (k', v') :: t => if k' = k then (k, v) :: t else (k', v') :: mapSet t k v

/-- The keys of a map. -/
def mapKeys (m : SMap) : List String := m.map (fun p => p.1)

theorem mapGet_isSome_mem_keys {m : SMap} {k : String}
    (h : (mapGet m k).isSome = true) : k ∈ mapKeys m := by
  simp only [mapGet] at h
  cases hf : List.find? (fun p => p.1 == k) m with
  | none => rw [hf] at h; simp at h
  | some p =>
    have hmem := List.mem_of_find?_eq_some hf
    have hkey := List.find?_some hf
    have : p.1 = k := by simpa using hkey
    rw [← this]
    exact List.mem_map_of_mem _ hmem

theorem mapKeys_length (m : SMap) : (mapKeys m).length = m.length := by
  simp [mapKeys]

theorem mapGet_set_self (m : SMap) (k v : String) :
    mapGet (mapSet m k v) k = some v := by
  induction m with
  | nil => simp [mapSet, mapGet, List.find?]
  | cons p t ih =>
    obtain ⟨k', v'⟩ := p
    simp only [mapSet]
    by_cases h : k' = k
    · simp [h, mapGet, List.find?]
    · simp only [if_neg h, mapGet, List.find?]
      have : (k' == k) = false := by simpa using h
      rw [this]
      exact ih

theorem mapGet_set_other (m : SMap) (k v k' : String) (h : k' ≠ k) :
    mapGet (mapSet m k v) k' = mapGet m k' := by
  have hkk : (k == k') = false := beq_eq_false_iff_ne.mpr (fun he => h he.symm)
  induction m with
  | nil => simp [mapSet, mapGet, List.find?, hkk]
  | cons p t ih =>
    obtain ⟨k₀, v₀⟩ := p
    simp only [mapSet]
    by_cases h₀ : k₀ = k
    · subst h₀
      simp [mapGet, List.find?, hkk]
    · simp only [if_neg h₀, mapGet, List.find?]
      by_cases hk : (k₀ == k') = true
      · simp [hk]
      · simp only [Bool.not_eq_true] at hk
        rw [hk]
        exact ih

/-- Model of Go's `path.Base`: the last element of the path after
stripping trailing slashes; `"."` for the empty path, `"/"` for a path of
only slashes. -/
def pathBase (s : String) : String :=
  if s = "" then "." else
  let t := s.data.reverse.dropWhile (fun c => c = '/')
  if t = [] then "/" else ⟨(t.takeWhile (fun c => c ≠ '/')).reverse⟩

/-- The resolver's two maps: short package name → import path, and the
reverse direction from import path → short package name. -/
structure PackageResolver where
  PackageToPath : SMap
  PathToPackage : SMap

/-- The coining loop inside `EncloseSymbol`:

```go
for counter := 1; ; counter++ {
    modName := fmt.Sprintf("%v%v", newName, counter)
    if _, ok := r.PackageToPath[modName]; !ok {
        newName = modName
        break
    }
}
```

made fuel-indexed; `freshLoop_success` shows fuel `m.length + 1` always
suffices, so the `none` branch is unreachable from `EncloseSymbol`. -/
def freshLoop (m : SMap) (base : String) : Nat → Nat → Option String
  | 0, _ => none
  | f + 1, c =>
    let cand := base ++ natToString c
    if (mapGet m cand).isSome then freshLoop m base f (c + 1) else some cand

theorem freshLoop_none_all_hit {m : SMap} {base : String} :
    ∀ {f c : Nat}, freshLoop m base f c = none →
      ∀ i, i < f → (mapGet m (base ++ natToString (c + i))).isSome = true := by
  intro f
  induction f with
  | zero => intro c _ i hi; omega
  | succ f ih =>
    intro c h i hi
    rw [freshLoop] at h
    by_cases hc : (mapGet m (base ++ natToString c)).isSome = true
    · rw [if_pos hc] at h
      cases i with
      | zero => simpa using hc
      | succ i =>
        have := ih h i (by omega)
        have harith : c + 1 + i = c + (i + 1) := by omega
        rwa [harith] at this
    · rw [if_neg hc] at h
      exact absurd h (by simp)

theorem freshLoop_success (m : SMap) (base : String) :
    ∃ n, freshLoop m base (m.length + 1) 1 = some n := by
  by_contra hno
  push_neg at hno
  have hnone : freshLoop m base (m.length + 1) 1 = none := by
    cases h : freshLoop m base (m.length + 1) 1 with
    | none => rfl
    | some n => exact absurd h (hno n)
  have hall := freshLoop_none_all_hit hnone
  set cands : List String :=
    (List.range (m.length + 1)).map (fun i => base ++ natToString (1 + i)) with hcands
  have hnodup : cands.Nodup := by
    rw [hcands]
    refine List.Nodup.map_on ?_ (List.nodup_range _)
    intro i _ j _ hij
    have := natToString_inj (string_append_left_cancel hij)
    omega
  have hsub : cands ⊆ mapKeys m := by
    intro x hx
    rw [hcands] at hx
    obtain ⟨i, hi, rfl⟩ := List.mem_map.mp hx
    exact mapGet_isSome_mem_keys (hall i (by simpa using hi))
  have hlen : cands.length = m.length + 1 := by simp [hcands]
  have := (List.subperm_of_subset hnodup hsub).length_le
  rw [hlen, mapKeys_length] at this
  omega

/-- `PackageResolver.EncloseSymbol` (`reader/reader.go`, lines 169–189):

```go
func (r *PackageResolver) EncloseSymbol(sym *lib.Symbol) (*lib.Symbol, bool) {
    if sym.Package == "" || sym.Package == "_keyword" { return sym, false }
    if name, ok := r.PathToPackage[sym.Package]; ok {
        return lib.Intern(name, sym.Identifier), false
    }
    newName := path.Base(sym.Package)
    if _, ok := r.PackageToPath[newName]; ok {
        for counter := 1; ; counter++ { ... }
    }
    r.PackageToPath[newName] = sym.Package
    r.PathToPackage[sym.Package] = newName
    return lib.Intern(newName, sym.Identifier), true
}
```

Returns the updated resolver together with the function's results; `none`
only on (unreachable) fuel exhaustion of the coining loop. -/
def EncloseSymbol (r : PackageResolver) (sym : Symbol) :
    Option (PackageResolver × Symbol × Bool) :=
  if sym.Package = "" ∨ sym.Package = "_keyword" then some (r, sym, false)
  else
    match mapGet r.PathToPackage sym.Package with
    | some name => some (r, Intern name sym.Identifier, false)
    | none =>
      let base := pathBase sym.Package
      let newName? :=
        if (mapGet r.PackageToPath base).isSome then
          freshLoop r.PackageToPath base (r.PackageToPath.length + 1) 1
        else some base
      match newName? with
      | none => none
      | some newName =>
        some ({ PackageToPath := mapSet r.PackageToPath newName sym.Package,
                PathToPackage := mapSet r.PathToPackage sym.Package newName },
              Intern newName sym.Identifier, true)

/-- `PackageResolver.ResolveSymbol` (`reader/reader.go`, lines 159–167);
`none` models the error return. -/
def ResolveSymbol (r : PackageResolver) (pkg ident : String) : Option Symbol :=
  if pkg = "" ∨ pkg = "_keyword" then some (Intern pkg ident)
  else
    match mapGet r.PackageToPath pkg with
    | some path => some (Intern path ident)
    | none => none

theorem freshLoop_characterize {m : SMap} {base : String} :
    ∀ {f c : Nat} {n : String}, freshLoop m base f c = some n →
      (mapGet m n).isSome = false ∧
      ∃ k, c ≤ k ∧ n = base ++ natToString k ∧
        ∀ j, c ≤ j → j < k → (mapGet m (base ++ natToString j)).isSome = true := by
  intro f
  induction f with
  | zero => intro c n h; simp [freshLoop] at h
  | succ f ih =>
    intro c n h
    rw [freshLoop] at h
    by_cases hc : (mapGet m (base ++ natToString c)).isSome = true
    · rw [if_pos hc] at h
      obtain ⟨hfree, k, hk, hn, hprev⟩ := ih h
      refine ⟨hfree, k, by omega, hn, ?_⟩
      intro j hcj hjk
      by_cases hj : j = c
      · rwa [hj]
      · exact hprev j (by omega) hjk
    · rw [if_neg hc] at h
      have hn : n = base ++ natToString c := (Option.some.inj h).symm
      refine ⟨by rw [hn]; simpa using hc, c, le_refl c, hn, ?_⟩
      intro j hcj hjc
      omega

/-- C4: `EncloseSymbol` returns symbols in localised/keyword packages
unchanged with `first_use = false`; returns the stored short name with
`first_use = false` when the path is a key of the path-to-short-name map;
and otherwise coins a fresh short name — the basename of the path, or the
basename suffixed with the least counter `k ≥ 1` whose candidate collides
with no key of the short-name-to-path map — inserts both directions into
the two maps, and returns the renamed symbol with `first_use = true`. -/
theorem encloseSymbol_spec (r : PackageResolver) (sym : Symbol) :
    (sym.Package = "" ∨ sym.Package = "_keyword" →
      EncloseSymbol r sym = some (r, sym, false)) ∧
    (∀ name, ¬ (sym.Package = "" ∨ sym.Package = "_keyword") →
      mapGet r.PathToPackage sym.Package = some name →
      EncloseSymbol r sym = some (r, Intern name sym.Identifier, false)) ∧
    (¬ (sym.Package = "" ∨ sym.Package = "_keyword") →
      mapGet r.PathToPackage sym.Package = none →
      ∃ newName,
        EncloseSymbol r sym = some
          ({ PackageToPath := mapSet r.PackageToPath newName sym.Package,
             PathToPackage := mapSet r.PathToPackage sym.Package newName },
           Intern newName sym.Identifier, true) ∧
        (mapGet r.PackageToPath newName).isSome = false ∧
        (newName = pathBase sym.Package ∨
          ∃ k, 1 ≤ k ∧ newName = pathBase sym.Package ++ natToString k ∧
            (mapGet r.PackageToPath (pathBase sym.Package)).isSome = true ∧
            ∀ j, 1 ≤ j → j < k →
              (mapGet r.PackageToPath
                (pathBase sym.Package ++ natToString j)).isSome = true)) := by
  refine ⟨?_, ?_, ?_⟩
  · intro h
    simp [EncloseSymbol, h]
  · intro name h hget
    rw [EncloseSymbol, if_neg h, hget]
  · intro h hget
    rw [EncloseSymbol] at *
    by_cases hbase : (mapGet r.PackageToPath (pathBase sym.Package)).isSome = true
    · obtain ⟨n, hn⟩ := freshLoop_success r.PackageToPath (pathBase sym.Package)
      obtain ⟨hfree, k, hk1, hkn, hprev⟩ := freshLoop_characterize hn
      refine ⟨n, ?_, hfree, Or.inr ⟨k, hk1, hkn, hbase, fun j h1 h2 => hprev j h1 h2⟩⟩
      rw [if_neg h, hget]
      simp only [if_pos hbase, hn]
    · refine ⟨pathBase sym.Package, ?_, by simpa using hbase, Or.inl rfl⟩
      rw [if_neg h, hget]
      simp only [if_neg hbase]

/-- Witness for `encloseSymbol_spec`: enclosing `lib/math:Sin` in a fresh
resolver coins the alias `math` and flags first use. -/
theorem encloseSymbol_spec_witness :
    ¬ ((Intern "lib/math" "Sin").Package = "" ∨
       (Intern "lib/math" "Sin").Package = "_keyword") ∧
    mapGet (PackageResolver.mk [] []).PathToPackage
      (Intern "lib/math" "Sin").Package = none ∧
    ∃ newName,
      EncloseSymbol (PackageResolver.mk [] []) (Intern "lib/math" "Sin") = some
        ({ PackageToPath := mapSet [] newName "lib/math",
           PathToPackage := mapSet [] "lib/math" newName },
         Intern newName "Sin", true) ∧
      (mapGet [] newName).isSome = false ∧
      (newName = pathBase "lib/math" ∨
        ∃ k, 1 ≤ k ∧ newName = pathBase "lib/math" ++ natToString k ∧
          (mapGet [] (pathBase "lib/math")).isSome = true ∧
          ∀ j, 1 ≤ j → j < k →
            (mapGet [] (pathBase "lib/math" ++ natToString j)).isSome = true) :=
  ⟨by simp [Intern], rfl,
    (encloseSymbol_spec (PackageResolver.mk [] []) (Intern "lib/math" "Sin")).2.2
      (by simp [Intern]) rfl⟩

/-! ## The translator's error recorder and `Compile`'s bailout

`compiler.error` (`part_003`, lines 94–106) resolves the form's position
to a line, then decides between discarding, bailing out, and appending:

```go
func (cmp *compiler) error(form *list.Pair, msg string) {
    pos, _ := cmp.reader.FormPos(form)
    epos := cmp.reader.File().Position(pos)
    n := len(cmp.reader.Errors)
    if n > 0 && cmp.reader.Errors[n-1].Pos.Line == epos.Line { return }
    if n > 10 { panic(bailout{}) }
    cmp.reader.Errors.Add(epos, msg)
}
```

We model the decision on the already-resolved line number (the position
table is reader bookkeeping with no influence on this control flow). -/

/-- One recorded diagnostic: the resolved source line and the message. -/
structure CErr where
  line : Nat
  msg : String
deriving DecidableEq

/-- The line of the most recently recorded error (`Errors[n-1].Pos.Line`). -/
def lastLine (errs : List CErr) : Option Nat := errs.getLast?.map CErr.line

/-- `compiler.error`, given the resolved line of the offending form;
`none` models `panic(bailout{})`. -/
def compilerError (errs : List CErr) (line : Nat) (msg : String) :
    Option (List CErr) :=
  if errs.length > 0 ∧ lastLine errs = some line then some errs
  else if errs.length > 10 then none
  else some (errs ++ [⟨line, msg⟩])

/-- C9: the recorder discards a report whose line matches the most
recently recorded error, bails out (instead of appending) when no such
match exists and the list already holds more than ten entries, and only
otherwise appends. -/
theorem compilerError_spec (errs : List CErr) (line : Nat) (msg : String) :
    (errs ≠ [] → lastLine errs = some line →
      compilerError errs line msg = some errs) ∧
    (¬ (errs ≠ [] ∧ lastLine errs = some line) → errs.length > 10 →
      compilerError errs line msg = none) ∧
    (¬ (errs ≠ [] ∧ lastLine errs = some line) → errs.length ≤ 10 →
      compilerError errs line msg = some (errs ++ [⟨line, msg⟩])) := by
  refine ⟨?_, ?_, ?_⟩
  · intro hne hl
    have hpos : errs.length > 0 := List.length_pos.mpr hne
    simp [compilerError, hpos, hl]
  · intro hnot hlen
    have hcond : ¬ (errs.length > 0 ∧ lastLine errs = some line) := by
      intro ⟨h1, h2⟩
      exact hnot ⟨List.length_pos.mp h1, h2⟩
    simp [compilerError, hcond, hlen]
  · intro hnot hlen
    have hcond : ¬ (errs.length > 0 ∧ lastLine errs = some line) := by
      intro ⟨h1, h2⟩
      exact hnot ⟨List.length_pos.mp h1, h2⟩
    have : ¬ errs.length > 10 := by omega
    simp [compilerError, hcond, this]

/-- Witness for `compilerError_spec`: with one error on line 5 already
recorded, a second report on line 5 is discarded. -/
theorem compilerError_spec_witness :
    ([CErr.mk 5 "a"] ≠ [] ∧ lastLine [CErr.mk 5 "a"] = some 5) ∧
    compilerError [CErr.mk 5 "a"] 5 "b" = some [CErr.mk 5 "a"] :=
  ⟨⟨by simp, rfl⟩,
    (compilerError_spec [CErr.mk 5 "a"] 5 "b").1 (by simp) rfl⟩

/-- Running a sequence of (already line-resolved) error reports through
the recorder, starting from the given error list; `Except.error` models
the `bailout` panic unwinding with the errors accumulated so far. -/
def runReports (reports : List (Nat × String)) (errs : List CErr) :
    Except (List CErr) (List CErr) :=
  match reports with
  | [] => Except.ok errs
  | (l, m) :: rest =>
    match compilerError errs l m with
    | none => Except.error errs
    | some errs' => runReports rest errs'

/-- `Compile` (`part_003`, lines 1982–1996) around a pipeline that issues
the given reports and otherwise produces `output`: the deferred `recover`
turns a `bailout` panic into returning the accumulated error list with no
output; the ordinary path returns the output only when the error list is
empty (`compileFile` returns nil otherwise). -/
def compileModel (reports : List (Nat × String)) (output : List Char) :
    Option (List Char) × List CErr :=
  match runReports reports [] with
  | Except.error errs => (none, errs)
  | Except.ok errs => (if errs.isEmpty then some output else none, errs)

theorem compilerError_none_length {errs : List CErr} {line : Nat} {msg : String}
    (h : compilerError errs line msg = none) : errs.length > 10 := by
  by_contra hlen
  push_neg at hlen
  rw [compilerError] at h
  split at h
  · exact absurd h (by simp)
  · rw [if_neg (by omega)] at h
    exact absurd h (by simp)

/-- C6, counterexample: twenty error reports on the same logical line,
starting from an empty error list, never abort — the recorder keeps a
single entry and the run completes normally.  This refutes the claim that
the pipeline "aborts hard after a small threshold of errors on the same
logical line". -/
theorem same_line_reports_never_abort :
    runReports (List.replicate 20 (7, "e")) [] =
      Except.ok [CErr.mk 7 "e"] := rfl

/-- C6 (amended): the only early termination is the bailout raised when a
report on a fresh line finds more than ten errors already recorded; a
report on the same line as the most recent error is discarded and never
counted; when the bailout fires, `Compile` returns the accumulated error
list and no output. -/
theorem compile_abort_only_global (reports : List (Nat × String))
    (output : List Char) :
    (∀ errs₀ errsF, runReports reports errs₀ = Except.error errsF →
      errsF.length > 10) ∧
    (∀ l m errs, errs ≠ [] → lastLine errs = some l →
      compilerError errs l m = some errs) ∧
    (∀ errsF, runReports reports [] = Except.error errsF →
      compileModel reports output = (none, errsF)) := by
  refine ⟨?_, ?_, ?_⟩
  · intro errs₀ errsF
    induction reports generalizing errs₀ with
    | nil => intro h; exact absurd h (by simp [runReports])
    | cons rep rest ih =>
      intro h
      obtain ⟨l, m⟩ := rep
      rw [runReports] at h
      cases hce : compilerError errs₀ l m with
      | none =>
        rw [hce] at h
        have : errs₀ = errsF := by
          have := h
          simp at this
          exact this
        rw [← this]
        exact compilerError_none_length hce
      | some errs₁ =>
        rw [hce] at h
        exact ih errs₁ h
  · intro l m errs hne hl
    exact (compilerError_spec errs l m).1 hne hl
  · intro errsF h
    rw [compileModel, h]

/-- Witness for `compile_abort_only_global`: twelve reports on twelve
distinct lines bail out with eleven recorded errors. -/
theorem compile_abort_only_global_witness :
    (runReports ((List.range 12).map (fun i => (i, "e"))) [] =
      Except.error ((List.range 11).map (fun i => CErr.mk i "e"))) ∧
    ((List.range 11).map (fun i => CErr.mk i "e")).length > 10 ∧
    compileModel ((List.range 12).map (fun i => (i, "e"))) ['x'] =
      (none, (List.range 11).map (fun i => CErr.mk i "e")) := by
  refine ⟨rfl, ?_, ?_⟩
  · exact (compile_abort_only_global ((List.range 12).map (fun i => (i, "e")))
      ['x']).1 [] _ rfl
  · exact (compile_abort_only_global ((List.range 12).map (fun i => (i, "e")))
      ['x']).2.2 _ rfl

/-! ## Compiler-side forms and character-class predicates

The translator consumes the reader's value tree: `*lib.Symbol`, `string`,
`*big.Int`, `rune`, `float64`, `complex128`, bad-form markers and proper
lists of these (`*list.Pair` chains; the reader only produces proper
lists).  Character-class predicates from Go's `unicode` package are
modelled exactly on the ASCII range (all inputs the claims touch are
ASCII; `goIsSpace` carries the full White_Space set). -/

inductive CForm where
  | strF (s : String)
  | symF (s : Symbol)
  | intF (z : Int)
  | runeF (c : Int)
  | floatF (q : ℚ)
  | cplxF (re im : ℚ)
  | badF
  | goNil
  | listF (es : List CForm)

/-- Model of `unicode.IsSpace`: the Unicode White_Space code points. -/
def goIsSpace (c : Char) : Bool :=
  c.toNat ∈ [9, 10, 11, 12, 13, 32, 0x85, 0xA0, 0x1680,
    0x2000, 0x2001, 0x2002, 0x2003, 0x2004, 0x2005, 0x2006, 0x2007,
    0x2008, 0x2009, 0x200A, 0x2028, 0x2029, 0x202F, 0x205F, 0x3000]

/-- Model of `unicode.IsLetter` on the ASCII range. -/
def goIsLetter (c : Char) : Bool :=
  decide ((65 ≤ c.toNat ∧ c.toNat ≤ 90) ∨ (97 ≤ c.toNat ∧ c.toNat ≤ 122))

/-- Model of `unicode.IsDigit` on the ASCII range. -/
def goIsDigit (c : Char) : Bool :=
  decide (48 ≤ c.toNat ∧ c.toNat ≤ 57)

/-- Model of `unicode.IsGraphic` on the ASCII range (non-ASCII code
points, which no claim touches, are treated as graphic except C1
controls). -/
def goIsGraphic (c : Char) : Bool :=
  decide ((32 ≤ c.toNat ∧ c.toNat ≤ 126) ∨ 0xA1 ≤ c.toNat)

/-- `isValidGoIdentifier` (`part_003`, lines 136–146): nonempty, and
every rune is a letter or `_`, or a digit in non-initial position. -/
def isValidGoIdentifier (lit : String) : Bool :=
  match lit.data with
  | [] => false
  | c :: rest =>
    (goIsLetter c || c == '_') &&
    rest.all (fun d => goIsLetter d || d == '_' || goIsDigit d)

/-- `isValidSimpleIdentifier` (`part_003`, lines 148–150). -/
def isValidSimpleIdentifier (sym : Symbol) : Bool :=
  sym.Package == "" && isValidGoIdentifier sym.Identifier

/-- The code points of `isValidImport`'s `illegalChars` constant. -/
def importIllegalCodes : List Nat :=
  [33, 34, 35, 36, 37, 38, 39, 40, 41, 42, 44, 58, 59, 60, 61, 62, 63,
   91, 92, 93, 94, 123, 124, 125, 96, 0xFFFD]

/-- `isValidImport` (`part_003`, lines 371–379). -/
def isValidImport (lit : String) : Bool :=
  lit.data.all (fun c =>
    goIsGraphic c && !(goIsSpace c) && !(importIllegalCodes.contains c.toNat)) &&
  lit != ""

/-- Model of `strings.TrimSpace`. -/
def goTrimSpace (s : String) : String :=
  ⟨((s.data.dropWhile goIsSpace).reverse.dropWhile goIsSpace).reverse⟩

/-- `formatComment` (`part_003`, lines 270–277): each line of the comment
becomes an emitted line `// <trimmed>`. -/
def formatComment (result : List Char) (comment : String) : List Char :=
  (comment.splitOn "\n").foldl
    (fun r line => r ++ ('/' :: '/' :: ' ' :: (goTrimSpace line).data) ++ ['\n'])
    result

/-! ## Translator state and the import/use declaration compilers -/

/-- A Go panic unwinding through the translator: the translator's own
`bailout` (raised by the error recorder) or a runtime panic (nil
dereference, failed type assertion, index out of range).  `fuelOut` is a
model artifact only: it marks exhaustion of the fuel bounding the
macro-expansion loop, which in Go may diverge when macros keep returning
macro forms. -/
inductive GoPanic where
  | bailout
  | runtimeErr (msg : String)
  | fuelOut

/-- The translator state the modelled functions touch: the resolver's two
maps (owned by the reader), the shared error list, and the header
buffer. -/
structure TransSt where
  resolver : PackageResolver
  errors : List CErr
  header : List Char

/-- `cmp.error(form, msg)` acting on the state, given the resolution
`lineOf` of forms to source lines; a `none` from the recorder becomes the
`bailout` panic. -/
def cmpError (lineOf : CForm → Nat) (form : CForm) (msg : String)
    (st : TransSt) : Except GoPanic TransSt :=
  match compilerError st.errors (lineOf form) msg with
  | none => Except.error GoPanic.bailout
  | some errs => Except.ok { st with errors := errs }

/-- Whether a form is the interned symbol `quote` (the comparison
`imp[0] == _quote` on interface values). -/
def isQuoteSym : CForm → Bool
  | CForm.symF s => s == Intern "" "quote"
  | _ => false

/-- `cmp.resolvePlugin`: opens a plugin shared object.  Plugin loading is
host-side and out of scope (the registry is abstract); it has no effect on
the resolver state, so it is modelled as a no-op. -/
def resolvePlugin (_path : String) : Unit := ()

/-- Helper: the double-quoted decl bytes `"path"` plus newline. -/
def quotedPathDecl (path : String) : List Char :=
  '"' :: path.data ++ ['"', '\n']

/-- The tail of the import-spec closure (`part_003`, lines 418–453), from
`ident, ok := imp[0].(*lib.Symbol)` onward, after quote unwrapping has
fixed `inner` (= `innerForm`), `imp` and `quoted`.  A failed symbol cast
records an error and then dereferences the nil symbol (a Go runtime
panic). -/
def importSpecTail (lineOf : CForm → Nat) (form innerForm : CForm)
    (imp : List CForm) (quoted : Bool) (st : TransSt) :
    Except GoPanic (TransSt × String × List Char) := do
  match imp with
  | [] => Except.error (GoPanic.runtimeErr "index out of range")
  | first :: rest =>
    match first with
    | CForm.symF ident => do
      let st ← if isValidSimpleIdentifier ident = false then
          cmpError lineOf innerForm "invalid import identifier" st
        else Except.ok st
      let importName := ident.Identifier
      match rest with
      | [] => Except.error (GoPanic.runtimeErr "index out of range")
      | second :: rest2 => do
        let (st, path) ← (match second with
          | CForm.strF p => Except.ok (st, p)
          | _ => do
            let st ← cmpError lineOf innerForm "import path is not a string" st
            Except.ok (st, ""))
        let st ← if isValidImport path = false then
            cmpError lineOf innerForm ("invalid import path: " ++ path) st
          else Except.ok st
        let (st, comment) ← (match rest2 with
          | [third] =>
            (match third with
             | CForm.strF c => Except.ok (st, c)
             | _ => do
               let st ← cmpError lineOf innerForm "import comment is not a string" st
               Except.ok (st, ""))
          | _ => Except.ok (st, ""))
        let st ← (if importName ≠ "_" then do
            let st ← if (mapGet st.resolver.PackageToPath importName).isSome then
                cmpError lineOf form "ambiguous import" st
              else Except.ok st
            let r := st.resolver
            Except.ok { st with resolver :=
              { PackageToPath := mapSet r.PackageToPath importName path,
                PathToPackage :=
                  if quoted then r.PathToPackage
                  else mapSet r.PathToPackage path importName } }
          else Except.ok st)
        let decl : List Char :=
          if quoted then []
          else importName.data ++ ' ' :: '"' :: path.data ++ ['"', '\n']
        Except.ok (st, comment, decl)
    | _ => do
      let _ ← cmpError lineOf innerForm "import name is not an identifier" st
      Except.error (GoPanic.runtimeErr "nil pointer dereference")

/-- The import-spec closure of `compileImportDecl` (`part_003`, lines
382–454).  A string element registers both map directions and emits a
quoted path; a `(name "path" [doc])` element registers `name → path` and,
when not quote-wrapped, also `path → name` and emits an import line;
quote-wrapped specs emit nothing. -/
def importSpecF (lineOf : CForm → Nat) (form : CForm) (st : TransSt)
    (element : CForm) : Except GoPanic (TransSt × String × List Char) := do
  match element with
  | CForm.strF inner => do
    let pkg := pathBase inner
    let st ← if (mapGet st.resolver.PackageToPath pkg).isSome then
        cmpError lineOf form "ambiguous import" st
      else Except.ok st
    let r := st.resolver
    let st := { st with resolver :=
      { PackageToPath := mapSet r.PackageToPath pkg inner,
        PathToPackage := mapSet r.PathToPackage inner pkg } }
    Except.ok (st, "", quotedPathDecl inner)
  | element => do
    let (st, innerForm, imp) ← (match element with
      | CForm.listF es => Except.ok (st, CForm.listF es, es)
      | _ => do
        let st ← cmpError lineOf form "invalid import clause" st
        Except.ok (st, CForm.listF [], ([] : List CForm)))
    let st ← if imp.length < 2 ∨ imp.length > 3 then
        cmpError lineOf innerForm "import clause has invalid length" st
      else Except.ok st
    match imp with
    | [] => Except.error (GoPanic.runtimeErr "index out of range")
    | first :: restImp =>
      if isQuoteSym first then do
        let st ← if imp.length ≠ 2 then
            cmpError lineOf innerForm "invalid quoted import" st
          else Except.ok st
        match restImp with
        | [] => Except.error (GoPanic.runtimeErr "index out of range")
        | second :: _ => do
          let (st, innerForm2, imp2) ← (match second with
            | CForm.listF es2 => Except.ok (st, CForm.listF es2, es2)
            | _ => do
              let st ← cmpError lineOf form "invalid quoted import" st
              Except.ok (st, CForm.listF [], ([] : List CForm)))
          let st ← if imp2.length < 2 ∨ imp2.length > 3 then
              cmpError lineOf innerForm2 "quoted import clause has invalid length" st
            else Except.ok st
          importSpecTail lineOf form innerForm2 imp2 true st
      else
        importSpecTail lineOf form innerForm imp false st

/-- The tail of the use-spec closure (`part_003`, lines 491–520), from
`ident, ok := imp[0].(*lib.Symbol)` onward. -/
def useSpecTail (lineOf : CForm → Nat) (form innerForm : CForm)
    (imp : List CForm) (quoted : Bool) (st : TransSt) :
    Except GoPanic (TransSt × String × List Char) := do
  match imp with
  | [] => Except.error (GoPanic.runtimeErr "index out of range")
  | first :: rest =>
    match first with
    | CForm.symF ident => do
      let st ← if isValidSimpleIdentifier ident = false then
          cmpError lineOf innerForm "invalid plugin identifier" st
        else Except.ok st
      let pluginName := ident.Identifier
      match rest with
      | [] => Except.error (GoPanic.runtimeErr "index out of range")
      | second :: rest2 => do
        let (st, path) ← (match second with
          | CForm.strF p => Except.ok (st, p)
          | _ => do
            let st ← cmpError lineOf innerForm "plugin path is not a string" st
            Except.ok (st, ""))
        let st ← if isValidImport path = false then
            cmpError lineOf innerForm ("invalid plugin path: " ++ path) st
          else Except.ok st
        let st ← (match rest2 with
          | [third] =>
            (match third with
             | CForm.strF _ => Except.ok st
             | _ => cmpError lineOf innerForm "plugin comment is not a string" st)
          | _ => Except.ok st)
        let st ← (if pluginName ≠ "_" then do
            let st ← if (mapGet st.resolver.PackageToPath pluginName).isSome then
                cmpError lineOf form "ambiguous use declaration" st
              else Except.ok st
            let r := st.resolver
            let _ := if quoted then () else resolvePlugin path
            Except.ok { st with resolver :=
              { r with PackageToPath :=
                  mapSet r.PackageToPath pluginName ("#" ++ path) } }
          else Except.ok st)
        Except.ok (st, "", ([] : List Char))
    | _ => do
      let _ ← cmpError lineOf innerForm "plugin name is not an identifier" st
      Except.error (GoPanic.runtimeErr "nil pointer dereference")

/-- The use-spec closure of `compileUseDecl` (`part_003`, lines 457–522):
registers the plugin path under its short name with a `#` sentinel in the
short-name-to-path map only, loads the plugin when not quote-wrapped, and
never emits decl bytes. -/
def useSpecF (lineOf : CForm → Nat) (form : CForm) (st : TransSt)
    (element : CForm) : Except GoPanic (TransSt × String × List Char) := do
  match element with
  | CForm.strF inner => do
    let pkg := pathBase inner
    let st ← if (mapGet st.resolver.PackageToPath pkg).isSome then
        cmpError lineOf form "ambiguous use declaration" st
      else Except.ok st
    let _ := resolvePlugin inner
    let r := st.resolver
    let st := { st with resolver :=
      { r with PackageToPath := mapSet r.PackageToPath pkg ("#" ++ inner) } }
    Except.ok (st, "", ([] : List Char))
  | element => do
    let (st, innerForm, imp) ← (match element with
      | CForm.listF es => Except.ok (st, CForm.listF es, es)
      | _ => do
        let st ← cmpError lineOf form "invalid use clause" st
        Except.ok (st, CForm.listF [], ([] : List CForm)))
    let st ← if imp.length < 2 ∨ imp.length > 3 then
        cmpError lineOf innerForm "use clause has invalid length" st
      else Except.ok st
    match imp with
    | [] => Except.error (GoPanic.runtimeErr "index out of range")
    | first :: restImp =>
      if isQuoteSym first then do
        let st ← if imp.length ≠ 2 then
            cmpError lineOf innerForm "invalid quoted use declaration" st
          else Except.ok st
        match restImp with
        | [] => Except.error (GoPanic.runtimeErr "index out of range")
        | second :: _ => do
          let (st, innerForm2, imp2) ← (match second with
            | CForm.listF es2 => Except.ok (st, CForm.listF es2, es2)
            | _ => do
              let st ← cmpError lineOf form "invalid quoted use declaration" st
              Except.ok (st, CForm.listF [], ([] : List CForm)))
          let st ← if imp2.length < 2 ∨ imp2.length > 3 then
              cmpError lineOf innerForm2 "quoted use clause has invalid length" st
            else Except.ok st
          useSpecTail lineOf form innerForm2 imp2 true st
      else
        useSpecTail lineOf form innerForm imp false st

/-! ## `compileGenDecl` (`part_003`, lines 320–369)

The spec-compiling closure `f` carries its own captured state `σ` (the
`iota` counter of `compileValueSpec`; `Unit` elsewhere) alongside the
translator state, and returns a comment and decl bytes; an empty decl
suppresses emission for that spec. -/

/-- The `oneDecl` closure of `compileGenDecl`. -/
def genDeclOne {σ : Type} (keyword : String) (lead : Bool)
    (f : σ → TransSt → CForm → Except GoPanic (σ × TransSt × String × List Char))
    (s : σ) (st : TransSt) (result : List Char) (spec : CForm) :
    Except GoPanic (TransSt × List Char) := do
  let (_, st, comment, decl) ← f s st spec
  if decl.isEmpty then Except.ok (st, result)
  else
    let result := if comment ≠ "" then
        formatComment (if lead then result ++ ['/', '/', '\n'] else result) comment
      else result
    Except.ok (st, result ++ keyword.data ++ [' '] ++ decl ++ ['\n', '\n'])

/-- The `cdr.ForEach` loop of `compileGenDecl`'s grouped form. -/
def genDeclEach {σ : Type}
    (f : σ → TransSt → CForm → Except GoPanic (σ × TransSt × String × List Char)) :
    σ → TransSt → List Char → List CForm → Except GoPanic (TransSt × List Char)
  | _, st, result, [] => Except.ok (st, result)
  | s, st, result, e :: rest => do
    let (s', st', comment, decl) ← f s st e
    let result := if decl.isEmpty then result
      else (if comment ≠ "" then formatComment result comment else result) ++ decl
    genDeclEach f s' st' result rest

/-- `compileGenDecl`: single specs emit `keyword spec`; multiple specs
emit a grouped `keyword ( … )`; with `allowLeadComment`, a leading string
spec becomes a comment ahead of the declaration. -/
def compileGenDecl {σ : Type} (keyword : String) (allowLeadComment : Bool)
    (f : σ → TransSt → CForm → Except GoPanic (σ × TransSt × String × List Char))
    (s0 : σ) (st : TransSt) (result : List Char) (form : CForm) :
    Except GoPanic (TransSt × List Char) :=
  match form with
  | CForm.listF [] => Except.error (GoPanic.runtimeErr "nil pointer dereference")
  | CForm.listF (_ :: specs) =>
    match specs with
    | [] => Except.error (GoPanic.runtimeErr "nil pointer dereference")
    | [spec] => genDeclOne keyword false f s0 st result spec
    | spec1 :: rest =>
      if allowLeadComment then
        match spec1, rest with
        | CForm.strF c, [spec] =>
          genDeclOne keyword true f s0 st (formatComment result c) spec
        | CForm.strF c, rest => do
          let (st, r) ← genDeclEach f s0 st
            ((formatComment result c) ++ keyword.data ++ [' ', '(', '\n']) rest
          Except.ok (st, r ++ [')', '\n', '\n'])
        | _, _ => do
          let (st, r) ← genDeclEach f s0 st
            (result ++ keyword.data ++ [' ', '(', '\n']) (spec1 :: rest)
          Except.ok (st, r ++ [')', '\n', '\n'])
      else do
        let (st, r) ← genDeclEach f s0 st
          (result ++ keyword.data ++ [' ', '(', '\n']) (spec1 :: rest)
        Except.ok (st, r ++ [')', '\n', '\n'])
  | _ => Except.error (GoPanic.runtimeErr "invalid type assertion")

/-- `compileImportDecl` (`part_003`, lines 381–455): runs the import-spec
closure over the declaration's specs, appending to the header buffer. -/
def compileImportDecl (lineOf : CForm → Nat) (form : CForm) (st : TransSt) :
    Except GoPanic TransSt := do
  let (st, h) ← compileGenDecl "import" false
    (fun _ st e => do
      let (st, c, d) ← importSpecF lineOf form st e
      Except.ok ((), st, c, d))
    () st st.header form
  Except.ok { st with header := h }

/-- `compileUseDecl` (`part_003`, lines 457–522). -/
def compileUseDecl (lineOf : CForm → Nat) (form : CForm) (st : TransSt) :
    Except GoPanic TransSt := do
  let (st, h) ← compileGenDecl "use" false
    (fun _ st e => do
      let (st, c, d) ← useSpecF lineOf form st e
      Except.ok ((), st, c, d))
    () st st.header form
  Except.ok { st with header := h }

/-- The claimed invariant: the two resolver maps are inverses. -/
def InverseMaps (r : PackageResolver) : Prop :=
  (∀ k v, mapGet r.PackageToPath k = some v → mapGet r.PathToPackage v = some k) ∧
  (∀ k v, mapGet r.PathToPackage k = some v → mapGet r.PackageToPath v = some k)

theorem inverse_extend {r : PackageResolver} {name path : String}
    (hinv : InverseMaps r) (h1 : mapGet r.PackageToPath name = none)
    (h2 : mapGet r.PathToPackage path = none) :
    InverseMaps ⟨mapSet r.PackageToPath name path,
                 mapSet r.PathToPackage path name⟩ := by
  obtain ⟨hfwd, hbwd⟩ := hinv
  constructor
  · intro k v hk
    by_cases hkn : k = name
    · subst hkn
      rw [mapGet_set_self] at hk
      have hv : v = path := (Option.some.inj hk).symm
      subst hv
      exact mapGet_set_self _ _ _
    · rw [mapGet_set_other _ _ _ _ hkn] at hk
      have := hfwd k v hk
      by_cases hvp : v = path
      · subst hvp
        rw [this] at h2
        exact absurd h2 (by simp)
      · rw [mapGet_set_other _ _ _ _ hvp]
        exact this
  · intro k v hk
    by_cases hkp : k = path
    · subst hkp
      rw [mapGet_set_self] at hk
      have hv : v = name := (Option.some.inj hk).symm
      subst hv
      exact mapGet_set_self _ _ _
    · rw [mapGet_set_other _ _ _ _ hkp] at hk
      have := hbwd k v hk
      by_cases hvn : v = name
      · subst hvn
        rw [this] at h1
        exact absurd h1 (by simp)
      · rw [mapGet_set_other _ _ _ _ hvn]
        exact this

theorem encloseSymbol_preserves_inverse {r : PackageResolver} {sym : Symbol}
    {r' : PackageResolver} {s : Symbol} {b : Bool}
    (hinv : InverseMaps r) (h : EncloseSymbol r sym = some (r', s, b)) :
    InverseMaps r' := by
  rw [EncloseSymbol] at h
  by_cases hloc : sym.Package = "" ∨ sym.Package = "_keyword"
  · rw [if_pos hloc] at h
    have : r = r' := congrArg (fun t => t.1) (Option.some.inj h)
    rwa [← this]
  · rw [if_neg hloc] at h
    cases hget : mapGet r.PathToPackage sym.Package with
    | some name =>
      rw [hget] at h
      have : r = r' := congrArg (fun t => t.1) (Option.some.inj h)
      rwa [← this]
    | none =>
      rw [hget] at h
      by_cases hbase : (mapGet r.PackageToPath (pathBase sym.Package)).isSome = true
      · simp only [if_pos hbase] at h
        cases hn : freshLoop r.PackageToPath (pathBase sym.Package)
            (r.PackageToPath.length + 1) 1 with
        | none => rw [hn] at h; exact absurd h (by simp)
        | some newName =>
          rw [hn] at h
          have hr' : r' = ⟨mapSet r.PackageToPath newName sym.Package,
              mapSet r.PathToPackage sym.Package newName⟩ :=
            (congrArg (fun t => t.1) (Option.some.inj h)).symm
          rw [hr']
          obtain ⟨hfree, -⟩ := freshLoop_characterize hn
          exact inverse_extend hinv (by simpa using hfree) hget
      · simp only [if_neg hbase] at h
        have hr' : r' = ⟨mapSet r.PackageToPath (pathBase sym.Package) sym.Package,
            mapSet r.PathToPackage sym.Package (pathBase sym.Package)⟩ :=
          (congrArg (fun t => t.1) (Option.some.inj h)).symm
        rw [hr']
        exact inverse_extend hinv (by simpa using hbase) hget

/-- C5, counterexample: compiling the use declaration `(use "a/b")` from a
fresh state inserts `b → #a/b` into the short-name-to-path map and
nothing into the path-to-short-name map, so the two maps are not inverses
afterwards. -/
theorem use_decl_breaks_inverse :
    compileUseDecl (fun _ => 0)
      (CForm.listF [CForm.symF (Intern "" "use"), CForm.strF "a/b"])
      ⟨⟨[], []⟩, [], []⟩ =
      Except.ok ⟨⟨[("b", "#a/b")], []⟩, [], []⟩ ∧
    ¬ InverseMaps ⟨[("b", "#a/b")], []⟩ := by
  constructor
  · rfl
  · intro ⟨hfwd, _⟩
    have := hfwd "b" "#a/b" rfl
    simp [mapGet, List.find?] at this

/-- C5 (amended): each insertion of `EncloseSymbol` and of an unquoted
string import is accompanied by the inverse insertion on the other side
(preserving the inverse invariant when the inserted keys are fresh), but
a quoted import inserts only into the short-name-to-path map and a use
declaration inserts only a `#`-marked path into the short-name-to-path
map, leaving the path-to-short-name map unchanged, so the invariant does
not extend to those operations. -/
theorem resolver_map_insertions :
    (∀ (r : PackageResolver) (sym : Symbol) (r' : PackageResolver)
        (s : Symbol) (b : Bool), InverseMaps r →
      EncloseSymbol r sym = some (r', s, b) → InverseMaps r') ∧
    (∀ (lineOf : CForm → Nat) (form : CForm) (st : TransSt) (p : String),
      InverseMaps st.resolver →
      mapGet st.resolver.PackageToPath (pathBase p) = none →
      mapGet st.resolver.PathToPackage p = none →
      importSpecF lineOf form st (CForm.strF p) =
        Except.ok ({ st with resolver :=
          ⟨mapSet st.resolver.PackageToPath (pathBase p) p,
           mapSet st.resolver.PathToPackage p (pathBase p)⟩ },
          "", quotedPathDecl p) ∧
      InverseMaps ⟨mapSet st.resolver.PackageToPath (pathBase p) p,
                   mapSet st.resolver.PathToPackage p (pathBase p)⟩) ∧
    (∀ (lineOf : CForm → Nat) (form : CForm) (st : TransSt) (p : String),
      mapGet st.resolver.PackageToPath (pathBase p) = none →
      useSpecF lineOf form st (CForm.strF p) =
        Except.ok (TransSt.mk
          (PackageResolver.mk
            (mapSet st.resolver.PackageToPath (pathBase p) ("#" ++ p))
            st.resolver.PathToPackage)
          st.errors st.header, "", ([] : List Char))) ∧
    (∀ (lineOf : CForm → Nat) (form : CForm) (st : TransSt)
        (name : Symbol) (p : String),
      isValidSimpleIdentifier name = true →
      name.Identifier ≠ "_" →
      isValidImport p = true →
      mapGet st.resolver.PackageToPath name.Identifier = none →
      importSpecF lineOf form st
        (CForm.listF [CForm.symF (Intern "" "quote"),
          CForm.listF [CForm.symF name, CForm.strF p]]) =
        Except.ok (TransSt.mk
          (PackageResolver.mk
            (mapSet st.resolver.PackageToPath name.Identifier p)
            st.resolver.PathToPackage)
          st.errors st.header, "", ([] : List Char))) := by
  refine ⟨?_, ?_, ?_, ?_⟩
  · exact fun r sym r' s b hinv h => encloseSymbol_preserves_inverse hinv h
  · intro lineOf form st p hinv h1 h2
    constructor
    · simp only [importSpecF, h1, Option.isSome_none, Bool.false_eq_true, if_false]
      rfl
    · exact inverse_extend hinv h1 h2
  · intro lineOf form st p h1
    simp only [useSpecF, h1, Option.isSome_none, Bool.false_eq_true, if_false]
    rfl
  · intro lineOf form st name p hvalid hname hpathok hfresh
    simp only [importSpecF, importSpecTail, isQuoteSym, List.length, bind, Except.bind,
      List.length_nil, List.length_cons]
    norm_num
    simp only [hvalid, hpathok, hfresh, hname, Intern, beq_self_eq_true, if_true,
      Bool.false_eq_true, if_false, Option.isSome_none, ne_eq, not_false_eq_true,
      ite_true, ite_false]
    simp only [Bool.true_eq_false, if_false, ite_false, hfresh, Option.isSome_none,
      Bool.false_eq_true]

/-- Witness for `resolver_map_insertions`: a use declaration for path
`"a/b"` from a fresh state. -/
theorem resolver_map_insertions_witness :
    mapGet (TransSt.mk ⟨[], []⟩ [] []).resolver.PackageToPath
      (pathBase "a/b") = none ∧
    useSpecF (fun _ => 0) CForm.badF (TransSt.mk ⟨[], []⟩ [] [])
        (CForm.strF "a/b") =
      Except.ok (TransSt.mk
        (PackageResolver.mk
          (mapSet (TransSt.mk ⟨[], []⟩ [] []).resolver.PackageToPath
            (pathBase "a/b") ("#" ++ "a/b"))
          (TransSt.mk ⟨[], []⟩ [] []).resolver.PathToPackage)
        [] [], "", ([] : List Char)) :=
  ⟨rfl, resolver_map_insertions.2.2.1 (fun _ => 0) CForm.badF
    (TransSt.mk ⟨[], []⟩ [] []) "a/b" rfl⟩

/-! ## The top-level declaration compiler (`part_003`, lines 524–858)

`compileDecl` dispatches on the head symbol of a top-level form.  Its
leaf compilers `compileType`, `compileExpression` and `compileBlock`
belong to the (mutually recursive, thousand-line) expression compiler and
are taken as parameters in a `SubCompilers` bundle, as is the plugin
lookup/expansion step of the default branch; everything else —
`compileValueSpec`, `compileTypeSpec`, `compileParameters`,
`compileFuncDecl`, `compilePragma`, `checkf`, `getf` and `compileDecl`
itself — is translated from the source.  Error messages that interpolate
`%v`-rendered forms are modelled by their constant prefix (no claim
inspects message text). -/

/-- Outcome of looking up and invoking a plugin macro in `compileDecl`'s
default branch. -/
inductive MacroOutcome where
  | lookupFailed
  | expandFailed (msg : String)
  | expanded (newForm : CForm)

/-- The compilers `compileDecl` delegates to, taken as parameters:
`compileType result ctxForm typeForm`, `compileExpression result ctxForm
exprForm`, `compileBlock result declForm stmts`, and the plugin
macro-expansion step. -/
structure SubCompilers where
  compileType : TransSt → List Char → CForm → CForm →
    Except GoPanic (TransSt × List Char)
  compileExpression : TransSt → List Char → CForm → CForm →
    Except GoPanic (TransSt × List Char)
  compileBlock : TransSt → List Char → CForm → CForm →
    Except GoPanic (TransSt × List Char)
  pluginExpand : Symbol → CForm → MacroOutcome

def spliceSym : Symbol := Intern "" "splice"
def constSym : Symbol := Intern "" "const"
def varSym : Symbol := Intern "" "var"
def typeSym : Symbol := Intern "" "type"
def typeAliasSym : Symbol := Intern "" "type-alias"
def funcSym : Symbol := Intern "" "func"
def declareSym : Symbol := Intern "" "declare"
def ellipsisSym : Symbol := Intern "" "..."
def keyDocumentation : Symbol := Intern "_keyword" "documentation"
def keyEqual : Symbol := Intern "_keyword" "="
def keyType : Symbol := Intern "_keyword" "type"

/-- `checkf` (`part_003`, lines 117–124): walks a property list two at a
time, checking each key against the allowed keywords; a non-symbol key is
a failed type assertion, an odd-length tail a nil dereference. -/
def checkf (lineOf : CForm → Nat) (outer : CForm) (keys : List Symbol) :
    TransSt → List CForm → Except GoPanic TransSt
  | st, [] => Except.ok st
  | st, k :: rest => do
    match k with
    | CForm.symF s => do
      let st ← if (keys.contains s) = false then
          cmpError lineOf outer "invalid key" st
        else Except.ok st
      match rest with
      | [] => Except.error (GoPanic.runtimeErr "nil pointer dereference")
      | _ :: rest2 => checkf lineOf outer keys st rest2
    | _ => Except.error (GoPanic.runtimeErr "interface conversion")

/-- `getf` (`part_003`, lines 126–134): looks up a keyword in a property
list; an odd-length list ends in a nil dereference. -/
def getf : List CForm → Symbol → Except GoPanic (Option CForm)
  | [], _ => Except.ok none
  | [_] , _ => Except.error (GoPanic.runtimeErr "nil pointer dereference")
  | k :: v :: rest, key =>
    match k with
    | CForm.symF s =>
      if s = key then Except.ok (some v) else getf rest key
    | _ => getf rest key

/-- Collect `*lib.Symbol` elements (`AppendToSlice` with the
`[]*lib.Symbol` cast, which panics on a non-symbol element). -/
def symsOfList : List CForm → Except GoPanic (List Symbol)
  | [] => Except.ok []
  | CForm.symF s :: rest => do
    let t ← symsOfList rest
    Except.ok (s :: t)
  | _ => Except.error (GoPanic.runtimeErr "interface conversion")

/-- The comma-separated identifier list `n1, n2, …`. -/
def identList (s0 : Symbol) (sRest : List Symbol) : List Char :=
  s0.Identifier.data ++
    sRest.foldl (fun acc s => acc ++ ',' :: ' ' :: s.Identifier.data) []

/-- `compileValueSpec` (`part_003`, lines 524–609): the spec-compiling
closure for `const` and `var`; the closure state is the captured `iota`
counter, incremented by the deferred `iota++` on every call. -/
def compileValueSpec (lineOf : CForm → Nat) (sub : SubCompilers) (form : CForm)
    (iota : Nat) (st : TransSt) (element : CForm) :
    Except GoPanic (Nat × TransSt × String × List Char) := do
  match element with
  | CForm.listF es =>
    match es with
    | [] => Except.error (GoPanic.runtimeErr "nil pointer dereference")
    | carE :: rest => do
      let (st, syms) ← (match carE with
        | CForm.listF ses => do
          let syms ← symsOfList ses
          Except.ok (st, syms)
        | CForm.symF s => Except.ok (st, [s])
        | _ => do
          let st ← cmpError lineOf element "invalid identifier(s)" st
          Except.ok (st, ([] : List Symbol)))
      let st ← syms.foldlM (fun st ident =>
        if isValidSimpleIdentifier ident = false then
          cmpError lineOf element "invalid identifier" st
        else Except.ok st) st
      let st ← checkf lineOf element [keyType, keyEqual, keyDocumentation] st rest
      let typForm? ← getf rest keyType
      let valForm? ← getf rest keyEqual
      let docForm? ← getf rest keyDocumentation
      let st ← (match form with
        | CForm.listF (CForm.symF h :: _) =>
          if h = varSym then
            (if typForm?.isNone ∧ valForm?.isNone then
              cmpError lineOf element "missing variable type or initialization" st
            else Except.ok st)
          else if h = constSym then
            (if valForm?.isNone ∧ (iota = 0 ∨ typForm?.isSome) then
              cmpError lineOf element "missing constant value" st
            else Except.ok st)
          else Except.ok st
        | _ => Except.ok st)
      match syms with
      | [] => Except.error (GoPanic.runtimeErr "index out of range")
      | s0 :: sRest => do
        let decl := identList s0 sRest
        let (st, decl) ← (match typForm? with
          | some t => sub.compileType st (decl ++ [' ']) element t
          | none => Except.ok (st, decl))
        let (st, decl) ← (match valForm? with
          | some v => sub.compileExpression st (decl ++ [' ', '=', ' ']) element v
          | none => Except.ok (st, decl))
        let (st, comment) ← (match docForm? with
          | some (CForm.strF c) => Except.ok (st, c)
          | some _ => do
            let st ← cmpError lineOf element "comment is not a string" st
            Except.ok (st, "")
          | none => Except.ok (st, ""))
        Except.ok (iota + 1, st, comment, decl ++ ['\n'])
  | CForm.symF e => do
    let st ← if isValidSimpleIdentifier e = false then
        cmpError lineOf form "invalid identifier" st
      else Except.ok st
    let st ← (match form with
      | CForm.listF (CForm.symF h :: _) =>
        if h = varSym then
          cmpError lineOf form "missing variable type or initialization" st
        else if h = constSym then
          (if iota = 0 then cmpError lineOf form "missing constant value" st
           else Except.ok st)
        else Except.ok st
      | _ => Except.ok st)
    Except.ok (iota + 1, st, "", e.Identifier.data ++ ['\n'])
  | _ => do
    let st ← cmpError lineOf form "invalid declaration" st
    Except.ok (iota + 1, st, "", ['\n'])

/-- `compileTypeSpec` (`part_003`, lines 611–647): the spec-compiling
closure for `type` and `type-alias`. -/
def compileTypeSpec (lineOf : CForm → Nat) (sub : SubCompilers) (form : CForm)
    (isAlias : Bool) (st : TransSt) (element : CForm) :
    Except GoPanic (TransSt × String × List Char) := do
  let (st, innerForm, spec) ← (match element with
    | CForm.listF es => Except.ok (st, CForm.listF es, es)
    | _ => do
      let st ← cmpError lineOf form "invalid type spec" st
      Except.ok (st, CForm.listF [], ([] : List CForm)))
  let st ← if spec.length < 2 ∨ spec.length > 3 then
      cmpError lineOf innerForm "type spec has invalid length" st
    else Except.ok st
  match spec with
  | [] => Except.error (GoPanic.runtimeErr "index out of range")
  | first :: rest =>
    match first with
    | CForm.symF ident => do
      let st ← if isValidSimpleIdentifier ident = false then
          cmpError lineOf innerForm "invalid identifier" st
        else Except.ok st
      let decl := ident.Identifier.data ++
        (if isAlias then [' ', '=', ' '] else [' '])
      match rest with
      | [] => Except.error (GoPanic.runtimeErr "index out of range")
      | second :: rest2 =>
        match second with
        | CForm.strF comment => do
          let st ← if spec.length < 3 then
              cmpError lineOf innerForm "type spec has invalid length" st
            else Except.ok st
          match rest2 with
          | [] => Except.error (GoPanic.runtimeErr "index out of range")
          | third :: _ => do
            let (st, decl) ← sub.compileType st decl innerForm third
            Except.ok (st, comment, decl)
        | second => do
          let st ← if spec.length > 2 then
              cmpError lineOf innerForm "type spec has invalid length" st
            else Except.ok st
          let (st, decl) ← sub.compileType st decl innerForm second
          Except.ok (st, "", decl)
    | _ => do
      let _ ← cmpError lineOf innerForm "invalid identifier" st
      Except.error (GoPanic.runtimeErr "nil pointer dereference")

/-- Whether a form is the interned ellipsis symbol `...` (the interface
comparison `entry[1] == _ellipsis`). -/
def isEllipsisForm : CForm → Bool
  | CForm.symF s => s == ellipsisSym
  | _ => false

/-- One entry of `compileParameters`' loop body (`part_003`, lines
662–702).  The returned flag is true when the Go loop executes
`continue`, skipping the break/comma handling of that iteration. -/
def compileParamEntry (lineOf : CForm → Nat) (sub : SubCompilers)
    (ellipsisOk isLast : Bool) (st : TransSt) (result : List Char)
    (entry : List CForm) (entryForm : CForm) :
    Except GoPanic (TransSt × List Char × Bool) := do
  let st ← if (ellipsisOk = true ∧ (entry.length < 2 ∨ entry.length > 3)) ∨
      entry.length ≠ 2 then
      cmpError lineOf entryForm "invalid parameter declaration length" st
    else Except.ok st
  match entry with
  | [] => Except.error (GoPanic.runtimeErr "index out of range")
  | first :: entryRest => do
    let (st, names) ← (match first with
      | CForm.symF s => Except.ok (st, [s])
      | CForm.listF ses => do
        let names ← symsOfList ses
        Except.ok (st, names)
      | _ => Except.ok (st, ([] : List Symbol)))
    let st ← if names.isEmpty then
        cmpError lineOf entryForm "invalid parameter names" st
      else Except.ok st
    let st ← names.foldlM (fun st name =>
      if isValidSimpleIdentifier name = false then
        cmpError lineOf entryForm "invalid identifier" st
      else Except.ok st) st
    match names with
    | [] => Except.error (GoPanic.runtimeErr "index out of range")
    | n0 :: nRest => do
      let result := result ++ identList n0 nRest ++ [' ']
      match entryRest with
      | [] => Except.error (GoPanic.runtimeErr "index out of range")
      | second :: entryRest2 =>
        if ellipsisOk = true ∧ isEllipsisForm second = true then
          if entry.length ≠ 3 then do
            let st ← cmpError lineOf entryForm "invalid parameter type" st
            Except.ok (st, result, true)
          else do
            let st ← if isLast = false then
                cmpError lineOf entryForm
                  "variadic parameter is not the final entry in parameter list" st
              else Except.ok st
            let result := result ++ ['.', '.', '.']
            match entryRest2 with
            | [] => Except.error (GoPanic.runtimeErr "index out of range")
            | third :: _ => do
              let (st, result) ← sub.compileType st result entryForm third
              Except.ok (st, result, false)
        else do
          let typeForm := if entry.length = 2 then second else CForm.goNil
          let (st, result) ← sub.compileType st result entryForm typeForm
          Except.ok (st, result, false)

/-- The loop of `compileParameters` (`part_003`, lines 654–707); reaching
the loop top with no parameters left (only possible after a `continue` on
the final entry) dereferences the nil pair. -/
def compileParamsLoop (lineOf : CForm → Nat) (sub : SubCompilers)
    (outer : CForm) (ellipsisOk : Bool) :
    TransSt → List Char → List CForm → Except GoPanic (TransSt × List Char)
  | _, _, [] => Except.error (GoPanic.runtimeErr "nil pointer dereference")
  | st, result, e :: rest => do
    match e with
    | CForm.listF ees => do
      let r ← compileParamEntry lineOf sub ellipsisOk rest.isEmpty st result
        ees (CForm.listF ees)
      match r with
      | (st, result, true) => compileParamsLoop lineOf sub outer ellipsisOk st result rest
      | (st, result, false) =>
        if rest.isEmpty then Except.ok (st, result)
        else compileParamsLoop lineOf sub outer ellipsisOk st (result ++ [',', ' ']) rest
    | _ => do
      let st ← cmpError lineOf outer "invalid parameter list entry" st
      compileParamsLoop lineOf sub outer ellipsisOk st result rest

/-- `compileParameters` (`part_003`, lines 649–709). -/
def compileParameters (lineOf : CForm → Nat) (sub : SubCompilers)
    (st : TransSt) (result : List Char) (form : CForm) (ellipsisOk : Bool) :
    Except GoPanic (TransSt × List Char) :=
  match form with
  | CForm.listF [] => Except.ok (st, result ++ ['(', ')'])
  | CForm.listF (e :: es) => do
    let (st, r) ← compileParamsLoop lineOf sub (CForm.listF (e :: es))
      ellipsisOk st (result ++ ['(']) (e :: es)
    Except.ok (st, r ++ [')'])
  | _ => Except.error (GoPanic.runtimeErr "interface conversion")

/-- `compileFuncDecl` (`part_003`, lines 711–778): optional receiver,
mandatory name, then optional parameter list, result list, doc comment
and body, each missing suffix producing a valid shorter Go form. -/
def compileFuncDecl (lineOf : CForm → Nat) (sub : SubCompilers)
    (st : TransSt) (result : List Char) (form : CForm) :
    Except GoPanic (TransSt × List Char) := do
  match form with
  | CForm.listF [] => Except.error (GoPanic.runtimeErr "nil pointer dereference")
  | CForm.listF (_ :: rest0) => do
    let head0 : List Char := "func ".data
    match rest0 with
    | [] => Except.error (GoPanic.runtimeErr "nil pointer dereference")
    | r0 :: _ => do
      let (st, head, rest) ← (match r0, rest0 with
        | CForm.listF recv, _ :: restR => do
          let (st, h) ← compileParameters lineOf sub st head0 (CForm.listF recv) false
          Except.ok (st, h ++ [' '], restR)
        | _, _ => Except.ok (st, head0, rest0))
      match rest with
      | [] => Except.error (GoPanic.runtimeErr "nil pointer dereference")
      | nameF :: rest2 =>
        match nameF with
        | CForm.symF ident => do
          let st ← if isValidSimpleIdentifier ident = false ∨
              ident.Identifier = "_" then
              cmpError lineOf form "invalid function name" st
            else Except.ok st
          let head := head ++ ident.Identifier.data ++ [' ']
          match rest2 with
          | [] => Except.ok (st, result ++ head ++ ['(', ')', '\n', '\n'])
          | p1 :: rest3 => do
            let (st, head, rest4) ← (match p1 with
              | CForm.listF ps => do
                let (st, h) ← compileParameters lineOf sub st head
                  (CForm.listF ps) true
                Except.ok (st, h ++ [' '], rest3)
              | _ => do
                let st ← cmpError lineOf form
                  "missing parameter list in function declaration" st
                Except.ok (st, head, p1 :: rest3))
            match rest4 with
            | [] => Except.ok (st, result ++ head ++ ['\n', '\n'])
            | r1 :: rest5 => do
              let (st, head, rest6) ← (match r1 with
                | CForm.listF [] => Except.ok (st, head, r1 :: rest5)
                | CForm.listF (q :: qs) => do
                  let (st, h) ← compileParameters lineOf sub st head
                    (CForm.listF (q :: qs)) false
                  Except.ok (st, h ++ [' '], rest5)
                | _ => do
                  let st ← cmpError lineOf form
                    "missing result list in function declaration" st
                  Except.ok (st, head, r1 :: rest5))
              match rest6 with
              | [] => Except.ok (st, result ++ head ++ ['\n', '\n'])
              | c1 :: rest7 => do
                let (result, rest8) := (match c1 with
                  | CForm.strF c => (formatComment result c, rest7)
                  | _ => (result, c1 :: rest7))
                let result := result ++ head
                match rest8 with
                | [] => Except.ok (st, result ++ ['\n', '\n'])
                | _ => do
                  let (st, result) ← sub.compileBlock st result form
                    (CForm.listF rest8)
                  Except.ok (st, result ++ ['\n'])
        | _ => do
          let _ ← cmpError lineOf form "function name is not an identifier" st
          Except.error (GoPanic.runtimeErr "nil pointer dereference")
  | _ => Except.error (GoPanic.runtimeErr "interface conversion")

/-- `compilePragma` (`part_003`, lines 780–798). -/
def compilePragma (lineOf : CForm → Nat) (st : TransSt) (result : List Char)
    (form : CForm) : Except GoPanic (TransSt × List Char) := do
  match form with
  | CForm.listF decl => do
    let st ← if decl.length ≠ 2 then
        cmpError lineOf form "declare form has invalid length" st
      else Except.ok st
    match decl with
    | _ :: second :: _ =>
      match second with
      | CForm.strF s => do
        let s := goTrimSpace s
        if s.data.isEmpty then do
          let st ← cmpError lineOf form "declaration in declare form is empty" st
          Except.ok (st, result)
        else
          Except.ok (st, result ++ '\n' :: '/' :: '/' :: s.data ++ ['\n', '\n'])
      | _ => do
        let st ← cmpError lineOf form
          "declaration in declare form is not a string" st
        Except.ok (st, result)
    | _ => Except.error (GoPanic.runtimeErr "index out of range")
  | _ => Except.error (GoPanic.runtimeErr "interface conversion")

/-- Adapter packaging `compileTypeSpec` as a spec-compiling closure with
trivial closure state. -/
def typeSpecAdapter (lineOf : CForm → Nat) (sub : SubCompilers) (form : CForm)
    (isAlias : Bool) : Unit → TransSt → CForm →
    Except GoPanic (Unit × TransSt × String × List Char) :=
  fun _ st e => do
    let (st, c, d) ← compileTypeSpec lineOf sub form isAlias st e
    Except.ok ((), st, c, d)

/-! ## `compileDecl` (`part_003`, lines 800–858)

```go
func (cmp *compiler) compileDecl(result []byte, form *list.Pair) []byte {
    var f func(element interface{}) (string, []byte)
    var keyword string
    for {
        switch form.Car {
        case _splice:
            block := form.ToSlice()
            for _, blockEntry := range block[1:] {
                result = cmp.compileDecl(result, blockEntry.(*list.Pair))
            }
            return result
        case _const: f = cmp.compileValueSpec(form); keyword = "const"
        case _var:   f = cmp.compileValueSpec(form); keyword = "var"
        case _type:  f = cmp.compileTypeSpec(form, false); keyword = "type"
        case _type_alias: f = cmp.compileTypeSpec(form, true); keyword = "type"
        case _func:    return cmp.compileFuncDecl(result, form)
        case _declare: return cmp.compilePragma(result, form)
        default:
            if sym, ok := form.Car.(*lib.Symbol); ok {
                if len(sym.Package) > 0 && sym.Package[0] == '#' { … macro … continue }
            }
            cmp.error(form, "invalid declaration")
            return result
        }
        return cmp.compileGenDecl(result, keyword, true, form, f)
    }
}
```

The macro `continue` is fuel-bounded; the `splice` recursion is
structural. -/
/-- The `for _, blockEntry := range block[1:]` loop of the `splice`
branch, parameterized by the recursive compilation of one declaration. -/
def spliceChildren
    (compile : TransSt → List Char → CForm → Except GoPanic (TransSt × List Char)) :
    TransSt → List Char → List CForm → Except GoPanic (TransSt × List Char)
  | st, result, [] => Except.ok (st, result)
  | st, result, e :: rest =>
    match e with
    | CForm.listF es => do
      let (st, result) ← compile st result (CForm.listF es)
      spliceChildren compile st result rest
    | _ => Except.error (GoPanic.runtimeErr "interface conversion")

def compileDecl (lineOf : CForm → Nat) (sub : SubCompilers) :
    Nat → TransSt → List Char → CForm → Except GoPanic (TransSt × List Char)
  | 0, _, _, _ => Except.error GoPanic.fuelOut
  | fuel + 1, st, result, form =>
    match form with
    | CForm.listF [] => Except.error (GoPanic.runtimeErr "nil pointer dereference")
    | CForm.listF (CForm.symF h :: tail) =>
      if h = spliceSym then
        spliceChildren (fun st r f => compileDecl lineOf sub fuel st r f)
          st result tail
      else if h = constSym then
        compileGenDecl "const" true
          (compileValueSpec lineOf sub form) 0 st result form
      else if h = varSym then
        compileGenDecl "var" true
          (compileValueSpec lineOf sub form) 0 st result form
      else if h = typeSym then
        compileGenDecl "type" true
          (typeSpecAdapter lineOf sub form false) () st result form
      else if h = typeAliasSym then
        compileGenDecl "type" true
          (typeSpecAdapter lineOf sub form true) () st result form
      else if h = funcSym then
        compileFuncDecl lineOf sub st result form
      else if h = declareSym then
        compilePragma lineOf st result form
      else if strHasPrefix h.Package "#" then
        match sub.pluginExpand h form with
        | MacroOutcome.lookupFailed => do
          let st ← cmpError lineOf form "invalid macro invocation" st
          Except.ok (st, result)
        | MacroOutcome.expandFailed msg => do
          let st ← cmpError lineOf form
            ("error during macroexpansion: " ++ msg) st
          Except.ok (st, result)
        | MacroOutcome.expanded nf =>
          match nf with
          | CForm.listF es => compileDecl lineOf sub fuel st result (CForm.listF es)
          | _ => Except.error (GoPanic.runtimeErr "interface conversion")
      else do
        let st ← cmpError lineOf form "invalid declaration" st
        Except.ok (st, result)
    | CForm.listF (_ :: _) => do
      let st ← cmpError lineOf form "invalid declaration" st
      Except.ok (st, result)
    | _ => Except.error (GoPanic.runtimeErr "interface conversion")

/-- Sequential compilation of a list of top-level declaration forms in
order, threading state and output — the meaning of "the concatenation of
the emissions of d1 through dn". -/
def compileSeq (lineOf : CForm → Nat) (sub : SubCompilers) (fuel : Nat) :
    TransSt → List Char → List CForm → Except GoPanic (TransSt × List Char)
  | st, result, [] => Except.ok (st, result)
  | st, result, d :: rest => do
    let (st', r') ← compileDecl lineOf sub fuel st result d
    compileSeq lineOf sub fuel st' r' rest

theorem spliceChildren_eq_compileSeq (lineOf : CForm → Nat)
    (sub : SubCompilers) (fuel : Nat) :
    ∀ (ds : List CForm), (∀ e ∈ ds, ∃ es, e = CForm.listF es) →
    ∀ (st : TransSt) (result : List Char),
      spliceChildren (fun st r f => compileDecl lineOf sub fuel st r f)
        st result ds =
      compileSeq lineOf sub fuel st result ds := by
  intro ds
  induction ds with
  | nil => intro _ st result; rfl
  | cons e rest ih =>
    intro hall st result
    obtain ⟨es, rfl⟩ := hall e (by simp)
    rw [spliceChildren, compileSeq]
    cases hc : compileDecl lineOf sub fuel st result (CForm.listF es) with
    | error p => simp [bind, Except.bind, hc]
    | ok v =>
      simp only [bind, Except.bind, hc]
      exact ih (fun x hx => hall x (by simp [hx])) v.1 v.2

/-- C8: wrapping a top-level declaration form in `(splice …)` compiles to
exactly the same output as compiling the form directly, and more
generally `(splice d1 … dn)` compiles to the sequential compilation of
`d1` through `dn` in order (the concatenation of their emissions), for
any sub-compilers, translator state and already-emitted output.  (The
fuel offset is a model artifact: the splice branch enters the recursive
compilation one fuel level down.) -/
theorem splice_transparent (lineOf : CForm → Nat) (sub : SubCompilers)
    (fuel : Nat) (st : TransSt) (result : List Char) :
    (∀ d : List CForm,
      compileDecl lineOf sub (fuel + 1) st result
        (CForm.listF [CForm.symF spliceSym, CForm.listF d]) =
      compileDecl lineOf sub fuel st result (CForm.listF d)) ∧
    (∀ ds : List CForm, (∀ e ∈ ds, ∃ es, e = CForm.listF es) →
      compileDecl lineOf sub (fuel + 1) st result
        (CForm.listF (CForm.symF spliceSym :: ds)) =
      compileSeq lineOf sub fuel st result ds) := by
  constructor
  · intro d
    rw [compileDecl]
    simp only [if_pos rfl]
    rw [spliceChildren]
    cases hc : compileDecl lineOf sub fuel st result (CForm.listF d) with
    | error p => simp [bind, Except.bind, hc]
    | ok v => simp [bind, Except.bind, hc, spliceChildren]
  · intro ds hall
    rw [compileDecl]
    simp only [if_pos rfl]
    exact spliceChildren_eq_compileSeq lineOf sub fuel ds hall st result

/-- Inert sub-compilers used to witness `splice_transparent` at a
concrete input. -/
def trivialSub : SubCompilers :=
  ⟨fun st r _ _ => Except.ok (st, r),
   fun st r _ _ => Except.ok (st, r),
   fun st r _ _ => Except.ok (st, r),
   fun _ _ => MacroOutcome.lookupFailed⟩

/-- Witness for `splice_transparent`: splicing a single `declare` form. -/
theorem splice_transparent_witness :
    (∀ e ∈ [CForm.listF [CForm.symF declareSym, CForm.strF "go:generate"]],
      ∃ es, e = CForm.listF es) ∧
    compileDecl (fun _ => 0) trivialSub (5 + 1) (TransSt.mk ⟨[], []⟩ [] []) []
      (CForm.listF (CForm.symF spliceSym ::
        [CForm.listF [CForm.symF declareSym, CForm.strF "go:generate"]])) =
    compileSeq (fun _ => 0) trivialSub 5 (TransSt.mk ⟨[], []⟩ [] []) []
      [CForm.listF [CForm.symF declareSym, CForm.strF "go:generate"]] := by
  have hall : ∀ e ∈ [CForm.listF [CForm.symF declareSym, CForm.strF "go:generate"]],
      ∃ es, e = CForm.listF es := by
    intro e he
    simp only [List.mem_singleton] at he
    exact ⟨_, he⟩
  exact ⟨hall, (splice_transparent (fun _ => 0) trivialSub 5
    (TransSt.mk ⟨[], []⟩ [] []) []).2 _ hall⟩

/-! ## The reader (`reader/reader.go`)

The reader scans a byte buffer, decoding UTF-8 one rune at a time.  The
state mirrors the `Reader` struct fields the control flow reads and
writes: the source bytes, `offset`, `rdOffset`, the current rune `ch`
(−1 at EOF) and the error list (positions modelled by byte offset; the
`token.File` line table and the form-range side table are bookkeeping no
claim observes and are omitted).  Loops are fuel-indexed and return
`none` on fuel exhaustion.  `unicode.IsLetter`/`IsDigit` are modelled on
the ASCII range (every input a claim touches is ASCII);
`unicode.IsSpace` carries the full White_Space set. -/

/-- One recorded reader diagnostic: byte offset and message. -/
abbrev RErr := Nat × String

structure RState where
  src : List Nat
  offset : Nat
  rdOffset : Nat
  ch : Int
  errors : List RErr
  resolver : PackageResolver

/-- Model of `unicode/utf8.DecodeRune` on a byte list: the decoded rune
and its width; invalid, truncated, surrogate or overlong input yields
`(RuneError, 1)` = `(0xFFFD, 1)`. -/
def utf8DecodeRune (bytes : List Nat) : Int × Nat :=
  match bytes with
  | [] => (0xFFFD, 0)
  | b0 :: rest =>
    if b0 < 0x80 then ((b0 : Int), 1)
    else if b0 < 0xC2 then (0xFFFD, 1)
    else if b0 ≤ 0xDF then
      match rest with
      | b1 :: _ =>
        if 0x80 ≤ b1 ∧ b1 ≤ 0xBF then
          (((b0 - 0xC0) * 64 + (b1 - 0x80) : Nat), 2)
        else (0xFFFD, 1)
      | [] => (0xFFFD, 1)
    else if b0 ≤ 0xEF then
      match rest with
      | b1 :: b2 :: _ =>
        let lo := if b0 = 0xE0 then 0xA0 else 0x80
        let hi := if b0 = 0xED then 0x9F else 0xBF
        if lo ≤ b1 ∧ b1 ≤ hi ∧ 0x80 ≤ b2 ∧ b2 ≤ 0xBF then
          (((b0 - 0xE0) * 4096 + (b1 - 0x80) * 64 + (b2 - 0x80) : Nat), 3)
        else (0xFFFD, 1)
      | _ => (0xFFFD, 1)
    else if b0 ≤ 0xF4 then
      match rest with
      | b1 :: b2 :: b3 :: _ =>
        let lo := if b0 = 0xF0 then 0x90 else 0x80
        let hi := if b0 = 0xF4 then 0x8F else 0xBF
        if lo ≤ b1 ∧ b1 ≤ hi ∧ 0x80 ≤ b2 ∧ b2 ≤ 0xBF ∧
            0x80 ≤ b3 ∧ b3 ≤ 0xBF then
          (((b0 - 0xF0) * 262144 + (b1 - 0x80) * 4096 + (b2 - 0x80) * 64 +
            (b3 - 0x80) : Nat), 4)
        else (0xFFFD, 1)
      | _ => (0xFFFD, 1)
    else (0xFFFD, 1)

/-- `Reader.NextRune` (`reader/reader.go`, lines 286–315; the
`file.AddLine` bookkeeping is omitted):

```go
func (rd *Reader) NextRune() rune {
    if rd.rdOffset < len(rd.src) {
        rd.offset = rd.rdOffset
        r, w := rune(rd.src[rd.rdOffset]), 1
        switch {
        case r == 0:
            rd.Error(rd.offset, "illegal rune NUL")
        case r >= utf8.RuneSelf:
            r, w = utf8.DecodeRune(rd.src[rd.rdOffset:])
            if r == utf8.RuneError && w == 1 {
                rd.Error(rd.offset, "illegal UTF-8 encoding")
            } else if r == bom && rd.offset > 0 {
                rd.Error(rd.offset, "illegal byte order mark")
            }
        }
        rd.rdOffset += w
        rd.ch = r
        return r
    }
    rd.offset = len(rd.src)
    rd.ch = -1
    return -1
}
``` -/
def nextRune (s : RState) : RState :=
  if s.rdOffset < s.src.length then
    let offset := s.rdOffset
    let b := s.src.getD s.rdOffset 0
    if b = 0 then
      { s with offset := offset, rdOffset := s.rdOffset + 1, ch := 0,
               errors := s.errors ++ [(offset, "illegal rune NUL")] }
    else if b ≥ 0x80 then
      let rw := utf8DecodeRune (s.src.drop s.rdOffset)
      let errs :=
        if rw.1 = 0xFFFD ∧ rw.2 = 1 then
          s.errors ++ [(offset, "illegal UTF-8 encoding")]
        else if rw.1 = 0xFEFF ∧ offset > 0 then
          s.errors ++ [(offset, "illegal byte order mark")]
        else s.errors
      { s with offset := offset, rdOffset := s.rdOffset + rw.2, ch := rw.1,
               errors := errs }
    else
      { s with offset := offset, rdOffset := s.rdOffset + 1, ch := (b : Int) }
  else
    { s with offset := s.src.length, ch := -1 }

/-- The initial state `NewReader` builds before scanning. -/
def initState (src : List Nat) : RState :=
  { src := src, offset := 0, rdOffset := 0, ch := 32, errors := [],
    resolver := ⟨[], []⟩ }

/-- The scan state after `NewReader`'s constructor body (`reader/reader.go`,
lines 233–260): one `NextRune`, and a second one when the first rune was
the byte order mark. -/
def newReaderState (src : List Nat) : RState :=
  let s1 := nextRune (initState src)
  if s1.ch = 0xFEFF then nextRune s1 else s1

/-- `NewReader`'s result: the reader, or the accumulated errors when the
initial scan recorded any (`rd.Errors.Err()`). -/
def NewReader (src : List Nat) : Except (List RErr) RState :=
  let s := newReaderState src
  if s.errors.isEmpty then Except.ok s else Except.error s.errors

/-- Model of `unicode.IsSpace` on a rune value. -/
def isSpaceRune (r : Int) : Bool :=
  r ∈ [9, 10, 11, 12, 13, 32, 0x85, 0xA0, 0x1680,
    0x2000, 0x2001, 0x2002, 0x2003, 0x2004, 0x2005, 0x2006, 0x2007,
    0x2008, 0x2009, 0x200A, 0x2028, 0x2029, 0x202F, 0x205F, 0x3000]

/-- `isDigit` (`reader/reader.go`, lines 349–351), with `unicode.IsDigit`
modelled on the ASCII range. -/
def isDigitRune (r : Int) : Bool := decide (48 ≤ r ∧ r ≤ 57)

/-- `validRune` (`reader/reader.go`, lines 835–837):
`'!' <= r && r <= '~' || unicode.IsLetter(r) || unicode.IsDigit(r)`,
with the Unicode classes modelled on the ASCII range (subsumed by the
first disjunct). -/
def validRune (r : Int) : Bool := decide (33 ≤ r ∧ r ≤ 126)

/-- `isNumRune` (`reader/reader.go`, lines 781–791): the decimal digits
plus `_ x X b B o O . e E p P + -` — note that the hex digits
`a…f A…F` are absent. -/
def isNumRune (r : Int) : Bool :=
  decide (48 ≤ r ∧ r ≤ 57) ||
  r ∈ [95, 120, 88, 98, 66, 111, 79, 46, 101, 69, 112, 80, 43, 45]

/-- The terminating runes of the standard table: double quote, single
quote, both parentheses, comma, semicolon and backquote (code points
34, 39, 40, 41, 44, 59, 96). -/
def standardTerminating (r : Int) : Bool :=
  r ∈ [34, 39, 40, 41, 44, 59, 96]

/-- `Reader.SkipSpace` (`reader/reader.go`, lines 353–357). -/
def skipSpace : Nat → RState → Option RState
  | 0, _ => none
  | fuel + 1, s =>
    if s.ch ≠ -1 ∧ isSpaceRune s.ch then skipSpace fuel (nextRune s)
    else some s

/-- `readHexBytes` (`reader/reader.go`, lines 456–470). -/
def readHexBytes : Nat → Nat → RState → RState × Nat × Bool
  | 0, acc, s => (s, acc, true)
  | n + 1, acc, s =>
    let r := s.ch
    if 48 ≤ r ∧ r ≤ 57 then
      readHexBytes n (acc * 16 + (r - 48).toNat) (nextRune s)
    else if 97 ≤ r ∧ r ≤ 102 then
      readHexBytes n (acc * 16 + (r - 97).toNat + 10) (nextRune s)
    else if 65 ≤ r ∧ r ≤ 70 then
      readHexBytes n (acc * 16 + (r - 65).toNat + 10) (nextRune s)
    else
      ({ s with errors := s.errors ++ [(s.offset, "invalid hex digit")] },
       acc, false)

/-- `readOctalByte` (`reader/reader.go`, lines 472–482). -/
def readOctalByte : Nat → Nat → RState → RState × Nat × Bool
  | 0, acc, s => (s, acc, true)
  | n + 1, acc, s =>
    let r := s.ch
    if 48 ≤ r ∧ r ≤ 55 then
      readOctalByte n (acc * 8 + (r - 48).toNat) (nextRune s)
    else
      ({ s with errors := s.errors ++ [(s.offset, "invalid octal digit")] },
       acc, false)

/-- A value produced by `Read`: the Go dynamic types the reader returns.
`intV` is a `*big.Int`, `floatV` a `float64` (modelled as an exact
rational; every float a claim mentions is exactly representable),
`cplxV` the `complex128` `complex(0, im)`, `runeV` a `rune`, `goIntV`
the plain `int` returned by the hex/octal branches of the rune macro,
`listV` a proper list, `eofV` the `io.EOF` sentinel. -/
inductive RVal where
  | intV (z : Int)
  | floatV (q : ℚ)
  | cplxV (im : ℚ)
  | strV (s : String)
  | runeV (c : Int)
  | goIntV (z : Int)
  | symV (s : Symbol)
  | badFormV (fromOff toOff : Nat)
  | listV (es : List RVal)
  | eofV

/-- The character for a rune value (used to build identifier and number
buffer contents; the reader only feeds it decoded runes). -/
def runeChar (r : Int) : Char := Char.ofNat r.toNat

/-- `readIdentifier` (`reader/reader.go`, lines 716–735): collects valid
non-terminating runes up to a colon.  (The `bytes.Buffer` write-failure
branch is unreachable and omitted.) -/
def readIdentifier : Nat → RState → List Char → Option (RState × List Char)
  | 0, _, _ => none
  | fuel + 1, s, acc =>
    let r := s.ch
    if validRune r = false ∨ r = 58 ∨ standardTerminating r then
      some (s, acc)
    else
      readIdentifier fuel (nextRune s) (acc ++ [runeChar r])

/-- `readSymbol` (`reader/reader.go`, lines 737–779).  The resolver
failure of a package-qualified symbol returns a bad form without adding
an error (the returned `error` is discarded by the source). -/
def readSymbol (fuel : Nat) (s : RState) : Option (RState × RVal) := do
  let offset := s.offset
  let (s, pkgChars) ← readIdentifier fuel s []
  let pkg : String := ⟨pkgChars⟩
  let (s, ok) :=
    if pkg ≠ "_" ∧ strHasPrefix pkg "_" then
      ({ s with errors := s.errors ++
         [(offset, "invalid package name or identifier")] }, false)
    else (s, true)
  if s.ch ≠ 58 then
    let (s, ok) :=
      if pkg = "" then
        ({ s with errors := s.errors ++ [(offset, "empty identifier")] }, false)
      else (s, ok)
    if ok then some (s, RVal.symV (Intern "" pkg))
    else some (s, RVal.badFormV offset s.offset)
  else
    let pkg := if pkg = "" then "_keyword" else pkg
    let s := nextRune s
    let (s, identChars) ← readIdentifier fuel s []
    let ident : String := ⟨identChars⟩
    let (s, ok) :=
      if s.ch = 58 then
        ({ s with errors := s.errors ++
           [(offset, "invalid package prefix")] }, false)
      else if ident = "" then
        ({ s with errors := s.errors ++ [(offset, "empty identifier")] }, false)
      else (s, ok)
    let (s, ok) :=
      if ident ≠ "_" ∧ strHasPrefix ident "_" then
        ({ s with errors := s.errors ++ [(offset, "invalid identifier")] }, false)
      else (s, ok)
    if ok then
      match ResolveSymbol s.resolver pkg ident with
      | some sym => some (s, RVal.symV sym)
      | none => some (s, RVal.badFormV offset s.offset)
    else some (s, RVal.badFormV offset s.offset)

/-! ### Models of `strconv.ParseFloat` and `(*big.Int).SetString`

`ParseFloat` is modelled as an exact rational parser for the Go
floating-point grammar (decimal and hexadecimal); rounding to `float64`
and range errors are not modelled — every value the claims mention is a
small, exactly representable number.  `SetString` with base 0 follows the
Go integer-literal grammar with base prefixes and underscores. -/

/-- The value of one digit character, if any (hex letters included). -/
def digitVal (c : Char) : Option Nat :=
  if 48 ≤ c.toNat ∧ c.toNat ≤ 57 then some (c.toNat - 48)
  else if 97 ≤ c.toNat ∧ c.toNat ≤ 102 then some (c.toNat - 97 + 10)
  else if 65 ≤ c.toNat ∧ c.toNat ≤ 70 then some (c.toNat - 65 + 10)
  else none

/-- The value of a digit string in the given base; `none` when empty or
when any character is not a digit below the base. -/
def parseDigits (base : Nat) (chars : List Char) : Option Nat :=
  match chars with
  | [] => none
  | _ =>
    chars.foldlM (fun acc c => do
      let d ← digitVal c
      if d < base then some (acc * base + d) else none) 0

/-- Model of strconv's `underscoreOK`: underscores may appear only
between a base prefix and an adjacent digit or between successive
digits. -/
def underscoreOK (chars : List Char) : Bool :=
  let chars := match chars with
    | '-' :: t => t
    | '+' :: t => t
    | t => t
  let (start, hex, rest) := match chars with
    | '0' :: c :: t =>
      if c = 'b' ∨ c = 'B' ∨ c = 'o' ∨ c = 'O' then (true, false, t)
      else if c = 'x' ∨ c = 'X' then (true, true, t)
      else (false, false, chars)
    | _ => (false, false, chars)
  let step := fun (saw : Char) (c : Char) =>
    if (digitVal c).isSome ∧ ((digitVal c).getD 0 < 10 ∨ hex) then some '0'
    else if c = '_' then (if saw = '0' then some '_' else none)
    else if saw = '_' then none
    else some '!'
  match rest.foldlM step (if start then '0' else '^') with
  | none => false
  | some saw => saw ≠ '_'

/-- The rational `mantNum / denPow * base ^ e`, built with `mkRat` over
integer arithmetic (kernel-reducible). -/
def sciVal (mantNum : Nat) (denPow : Nat) (base : Nat) (e : Int) : ℚ :=
  if 0 ≤ e then mkRat (mantNum * base ^ e.toNat) denPow
  else mkRat mantNum (denPow * base ^ (-e).toNat)

/-- Parse an optional exponent sign and digit run. -/
def parseExp (chars : List Char) : Option Int :=
  match chars with
  | '-' :: t => do
    let v ← parseDigits 10 t
    some (-(v : Int))
  | '+' :: t => do
    let v ← parseDigits 10 t
    some ((v : Int))
  | t => do
    let v ← parseDigits 10 t
    some ((v : Int))

/-- Whether a character is a decimal digit. -/
def isDecDigit (c : Char) : Bool := decide (48 ≤ c.toNat ∧ c.toNat ≤ 57)

/-- Whether a character is a hexadecimal digit. -/
def isHexDigit (c : Char) : Bool :=
  decide ((48 ≤ c.toNat ∧ c.toNat ≤ 57) ∨ (97 ≤ c.toNat ∧ c.toNat ≤ 102) ∨
    (65 ≤ c.toNat ∧ c.toNat ≤ 70))

/-- Model of `strconv.ParseFloat(s, 64)` as an exact rational: the Go
decimal or hexadecimal floating-point grammar (`Inf`/`NaN` and rounding
are outside the model). -/
def goParseFloat (s : String) : Option ℚ :=
  if underscoreOK s.data = false then none else
  let chars := s.data.filter (fun c => c ≠ '_')
  let (neg, chars) := match chars with
    | '-' :: t => (true, t)
    | '+' :: t => (false, t)
    | t => (false, t)
  let val? : Option ℚ :=
    match chars with
    | '0' :: c :: rest =>
      if c = 'x' ∨ c = 'X' then
        -- hexadecimal mantissa with mandatory p exponent
        let m1 := rest.takeWhile isHexDigit
        let r1 := rest.dropWhile isHexDigit
        let (m2, r2) := match r1 with
          | '.' :: t => (t.takeWhile isHexDigit, t.dropWhile isHexDigit)
          | t => ([], t)
        if m1.isEmpty ∧ m2.isEmpty then none else
        match r2 with
        | p :: t =>
          if p = 'p' ∨ p = 'P' then do
            let e ← parseExp t
            let hi := (parseDigits 16 (m1 ++ m2)).getD 0
            some (sciVal hi (16 ^ m2.length) 2 e)
          else none
        | [] => none
      else decFloatVal ('0' :: c :: rest)
    | chars => decFloatVal chars
  match val? with
  | none => none
  | some v => some (if neg then -v else v)
where
  /-- The decimal branch: `digits [. digits] [e [sign] digits]`. -/
  decFloatVal (chars : List Char) : Option ℚ :=
    let d1 := chars.takeWhile isDecDigit
    let r1 := chars.dropWhile isDecDigit
    let (d2, r2) := match r1 with
      | '.' :: t => (t.takeWhile isDecDigit, t.dropWhile isDecDigit)
      | t => ([], t)
    if d1.isEmpty ∧ d2.isEmpty then none else
    let dv := (parseDigits 10 (d1 ++ d2)).getD 0
    match r2 with
    | e :: t =>
      if e = 'e' ∨ e = 'E' then do
        let ex ← parseExp t
        some (sciVal dv (10 ^ d2.length) 10 ex)
      else none
    | [] => some (sciVal dv (10 ^ d2.length) 10 0)

/-- Model of `(*big.Int).SetString(s, 0)`: sign, base prefix
(`0b`/`0o`/`0x`, legacy leading `0` for octal), underscores per the Go
literal rules. -/
def bigIntSetString0 (s : String) : Option Int :=
  if underscoreOK s.data = false then none else
  let chars := s.data.filter (fun c => c ≠ '_')
  let (neg, chars) := match chars with
    | '-' :: t => (true, t)
    | '+' :: t => (false, t)
    | t => (false, t)
  let mag? : Option Nat :=
    match chars with
    | '0' :: c :: rest =>
      if c = 'b' ∨ c = 'B' then parseDigits 2 rest
      else if c = 'o' ∨ c = 'O' then parseDigits 8 rest
      else if c = 'x' ∨ c = 'X' then parseDigits 16 rest
      else parseDigits 8 (c :: rest)
    | ['0'] => some 0
    | chars => parseDigits 10 chars
  match mag? with
  | none => none
  | some v => some (if neg then -(v : Int) else (v : Int))

/-- `readNumber` (`reader/reader.go`, lines 793–833).  (The
`bytes.Buffer` write-failure branch is unreachable and omitted; the
`strconv` error text is modelled by a fixed message.) -/
def readNumberLoop : Nat → RState → List Char → Bool →
    Option (RState × List Char × Bool)
  | 0, _, _, _ => none
  | fuel + 1, s, acc, flt =>
    let r := s.ch
    if isNumRune r then
      let flt := if r = 46 ∨ r = 101 ∨ r = 69 ∨ r = 112 ∨ r = 80 then true
        else flt
      readNumberLoop fuel (nextRune s) (acc ++ [runeChar r]) flt
    else some (s, acc, flt)

def readNumber (fuel : Nat) (s : RState) : Option (RState × RVal) := do
  let offset := s.offset
  let (s, buf, flt) ← readNumberLoop fuel s [] false
  let str : String := ⟨buf⟩
  if s.ch = 105 then
    let s := nextRune s
    match goParseFloat str with
    | some v => some (s, RVal.cplxV v)
    | none =>
      some ({ s with errors := s.errors ++ [(offset, "invalid float syntax")] },
        RVal.badFormV offset s.offset)
  else if flt then
    match goParseFloat str with
    | some v => some (s, RVal.floatV v)
    | none =>
      some ({ s with errors := s.errors ++ [(offset, "invalid float syntax")] },
        RVal.badFormV offset s.offset)
  else
    match bigIntSetString0 str with
    | some v => some (s, RVal.intV v)
    | none =>
      some ({ s with errors := s.errors ++ [(offset, "invalid number syntax")] },
        RVal.badFormV offset s.offset)

/-! ### The standalone reader macros

A reader macro returns the new state and `some form`, or `none` for the
"consumed whitespace/comment, read next" sentinel (Go `nil`).  The outer
`Option` is fuel exhaustion. -/

/-- `ErrorMacro` (`reader/reader.go`, lines 359–364). -/
def errorMacroF (s : RState) : RState × Option RVal :=
  let offset := s.offset
  let s := { s with errors := s.errors ++
    [(offset, "invalid macro rune")] }
  let s := nextRune s
  (s, some (RVal.badFormV offset s.offset))

/-- `lineCommentMacro` (`reader/reader.go`, lines 446–454). -/
def lineCommentLoop : Nat → RState → Option (RState × Option RVal)
  | 0, _ => none
  | fuel + 1, s =>
    let s := nextRune s
    if s.ch = 10 ∨ s.ch = -1 then some (nextRune s, none)
    else lineCommentLoop fuel s

def lineCommentM (fuel : Nat) (s : RState) : Option (RState × Option RVal) :=
  lineCommentLoop fuel (nextRune s)

/-- `blockCommentMacro` (`reader/reader.go`, lines 677–702): tracks the
nesting level of `c1 c2` … `c2 c1` delimiters, starting at 1. -/
def blockCommentLoop (c1 c2 : Int) (dispatchRuneOffset : Nat) :
    Nat → Nat → RState → Option (RState × Option RVal)
  | 0, _, _ => none
  | fuel + 1, level, s =>
    let r := s.ch
    if r = -1 then
      let s := { s with errors := s.errors ++
        [(dispatchRuneOffset, "incomplete block comment")] }
      some (s, some (RVal.badFormV dispatchRuneOffset s.offset))
    else if r = c1 then
      let s := nextRune s
      if s.ch = c2 then blockCommentLoop c1 c2 dispatchRuneOffset fuel (level + 1) (nextRune s)
      else blockCommentLoop c1 c2 dispatchRuneOffset fuel level s
    else if r = c2 then
      let s := nextRune s
      if s.ch = c1 then
        let s := nextRune s
        if level - 1 = 0 then some (s, none)
        else blockCommentLoop c1 c2 dispatchRuneOffset fuel (level - 1) s
      else blockCommentLoop c1 c2 dispatchRuneOffset fuel level s
    else blockCommentLoop c1 c2 dispatchRuneOffset fuel level (nextRune s)

def blockCommentM (fuel : Nat) (c1 : Int) (dispatchRuneOffset : Nat)
    (s : RState) : Option (RState × Option RVal) :=
  let c2 := s.ch
  let s := nextRune s
  blockCommentLoop c1 c2 dispatchRuneOffset fuel 1 s

/-- The `fastForward` closure of `stringMacro` (`reader/reader.go`,
lines 487–496). -/
def stringFastForward (d : Int) : Nat → RState → Option RState
  | 0, _ => none
  | fuel + 1, s =>
    let s := nextRune s
    if s.ch = -1 ∨ s.ch = 10 ∨ s.ch = d then some (nextRune s)
    else if s.ch = 92 then
      match fuel with
      | 0 => none
      | fuel' + 1 => stringFastForward d fuel' (nextRune s)
    else stringFastForward d fuel s

/-- The escape dispatch of `stringMacro` (`reader/reader.go`, lines
517–568).  The `bytes.Buffer` write errors are unreachable and omitted;
escaped bytes are modelled as appended code points. -/
def stringEscape (escapeOffset : Nat) (s : RState) (acc : List Char) :
    RState × List Char × Bool :=
  let r := s.ch
  if r = -1 then
    ({ s with errors := s.errors ++
      [(escapeOffset, "incomplete escape in string literal")] }, acc, false)
  else if r = 97 then (s, acc ++ [runeChar 7], true)
  else if r = 98 then (s, acc ++ [runeChar 8], true)
  else if r = 102 then (s, acc ++ [runeChar 12], true)
  else if r = 110 then (s, acc ++ [runeChar 10], true)
  else if r = 114 then (s, acc ++ [runeChar 13], true)
  else if r = 116 then (s, acc ++ [runeChar 9], true)
  else if r = 118 then (s, acc ++ [runeChar 11], true)
  else if r = 92 then (s, acc ++ [runeChar 92], true)
  else if r = 34 then (s, acc ++ [runeChar 34], true)
  else if r = 120 then
    let t := readHexBytes 2 0 (nextRune s)
    if t.2.2 then (t.1, acc ++ [runeChar (t.2.1 : Int)], true)
    else (t.1, acc, true)
  else if 48 ≤ r ∧ r ≤ 55 then
    let t := readOctalByte 3 0 s
    if t.2.2 then (t.1, acc ++ [runeChar (t.2.1 : Int)], true)
    else (t.1, acc, true)
  else if r = 117 then
    let t := readHexBytes 4 0 (nextRune s)
    if t.2.2 then (t.1, acc ++ [runeChar (t.2.1 : Int)], true)
    else (t.1, acc, true)
  else if r = 85 then
    let t := readHexBytes 8 0 (nextRune s)
    if t.2.2 then (t.1, acc ++ [runeChar (t.2.1 : Int)], true)
    else (t.1, acc, true)
  else
    ({ s with errors := s.errors ++
      [(escapeOffset, "invalid escape in string literal")] }, acc, true)

/-- The scanning loop of `stringMacro` (`reader/reader.go`, lines
497–569). -/
def stringLoop (offset : Nat) (d : Int) :
    Nat → RState → List Char → Option (RState × Option RVal)
  | 0, _, _ => none
  | fuel + 1, s, acc =>
    let s := nextRune s
    let r := s.ch
    if r = -1 ∨ r = 10 then
      let s := { s with errors := s.errors ++
        [(offset, "incomplete string literal")] }
      let s := nextRune s
      some (s, some (RVal.badFormV offset s.offset))
    else if r = d then
      some (nextRune s, some (RVal.strV ⟨acc⟩))
    else if r ≠ 92 then
      stringLoop offset d fuel s (acc ++ [runeChar r])
    else
      let escapeOffset := s.offset
      let t := stringEscape escapeOffset (nextRune s) acc
      if t.2.2 then stringLoop offset d fuel t.1 t.2.1
      else some (t.1, some (RVal.badFormV offset t.1.offset))

def stringM (fuel : Nat) (s : RState) : Option (RState × Option RVal) :=
  stringLoop s.offset s.ch fuel s []

/-- `rawStringMacro` (`reader/reader.go`, lines 572–602). -/
def rawStringLoop (dispatchRuneOffset : Nat) (d : Int) :
    Nat → RState → List Char → Option (RState × Option RVal)
  | 0, _, _ => none
  | fuel + 1, s, acc =>
    let s := nextRune s
    let r := s.ch
    if r = -1 then
      let s := { s with errors := s.errors ++
        [(dispatchRuneOffset, "incomplete raw string literal")] }
      some (s, some (RVal.badFormV dispatchRuneOffset s.offset))
    else if r = d then
      some (nextRune s, some (RVal.strV ⟨acc⟩))
    else if r = 13 then
      rawStringLoop dispatchRuneOffset d fuel s acc
    else
      rawStringLoop dispatchRuneOffset d fuel s (acc ++ [runeChar r])

def rawStringM (fuel : Nat) (dispatchRuneOffset : Nat) (s : RState) :
    Option (RState × Option RVal) :=
  rawStringLoop dispatchRuneOffset s.ch fuel s []

/-- `runeMacro` (`reader/reader.go`, lines 604–666).  The plain and named
escapes return `rune`-typed values; the hex/octal escapes return
`int`-typed values. -/
def runeM (dispatchRuneOffset : Nat) (s : RState) : RState × Option RVal :=
  let s := nextRune s
  if s.ch ≠ 92 then (s, some (RVal.runeV s.ch))
  else
    let s := nextRune s
    let r := s.ch
    if r = -1 then
      ({ s with errors := s.errors ++
        [(dispatchRuneOffset, "incomplete rune literal")] },
       some (RVal.badFormV dispatchRuneOffset s.offset))
    else if r = 97 then (nextRune s, some (RVal.runeV 7))
    else if r = 98 then (nextRune s, some (RVal.runeV 8))
    else if r = 102 then (nextRune s, some (RVal.runeV 12))
    else if r = 110 then (nextRune s, some (RVal.runeV 10))
    else if r = 114 then (nextRune s, some (RVal.runeV 13))
    else if r = 115 then (nextRune s, some (RVal.runeV 32))
    else if r = 116 then (nextRune s, some (RVal.runeV 9))
    else if r = 118 then (nextRune s, some (RVal.runeV 11))
    else if r = 92 then (nextRune s, some (RVal.runeV 92))
    else if r = 39 then (nextRune s, some (RVal.runeV 39))
    else if r = 120 then
      let t := readHexBytes 2 0 (nextRune s)
      if t.2.2 then (t.1, some (RVal.goIntV (t.2.1 : Int)))
      else (t.1, some (RVal.badFormV dispatchRuneOffset t.1.offset))
    else if 48 ≤ r ∧ r ≤ 55 then
      let t := readOctalByte 3 0 s
      if t.2.2 then (t.1, some (RVal.goIntV (t.2.1 : Int)))
      else (t.1, some (RVal.badFormV dispatchRuneOffset t.1.offset))
    else if r = 117 then
      let t := readHexBytes 4 0 (nextRune s)
      if t.2.2 then (t.1, some (RVal.goIntV (t.2.1 : Int)))
      else (t.1, some (RVal.badFormV dispatchRuneOffset t.1.offset))
    else if r = 85 then
      let t := readHexBytes 8 0 (nextRune s)
      if t.2.2 then (t.1, some (RVal.goIntV (t.2.1 : Int)))
      else (t.1, some (RVal.badFormV dispatchRuneOffset t.1.offset))
    else
      let s := { s with errors := s.errors ++
        [(dispatchRuneOffset, "invalid escape in rune literal")] }
      (s, some (RVal.badFormV dispatchRuneOffset s.offset))

/-! ### The main `Read` loop (`reader/reader.go`, lines 839–877)

`Read` skips whitespace and dispatches on the current rune through the
standard table: the macro runes `( ) ' ; " ` , #` (with `#` installed by
`init()` as the dispatching reader over the sub-table `` ` \ ; | ``),
then digits to `readNumber`, valid runes to `readSymbol`, anything else
records `invalid rune` and continues.  The separate
`dispatchMacroRunes` branch of `Read` is unreachable with the standard
table (its only key `#` is already a macro rune) and is omitted.  All
functions are fuel-indexed; scanning sub-loops get the generous bound
`src.length + 2`. -/

def quoteSymV : RVal := RVal.symV (Intern "" "quote")
def quasiquoteSymV : RVal := RVal.symV (Intern "" "quasiquote")
def unquoteSymV : RVal := RVal.symV (Intern "" "unquote")
def unquoteSplicingSymV : RVal := RVal.symV (Intern "" "unquote-splicing")

mutual

/-- `Reader.Read`. -/
def read : Nat → RState → Option (RState × RVal)
  | 0, _ => none
  | fuel + 1, s0 => do
    let s ← skipSpace (s0.src.length + 2) s0
    let r := s.ch
    if r = -1 then some (s, RVal.eofV)
    else if r = 40 then readDelimitedList fuel 41 s
    else if r = 41 then
      let t := errorMacroF s
      some (t.1, (t.2).getD RVal.eofV)
    else if r = 39 then quoteWrapM fuel false s
    else if r = 59 then do
      let t ← lineCommentM (s.src.length + 2) s
      match t.2 with
      | some v => some (t.1, v)
      | none => read fuel t.1
    else if r = 34 then do
      let t ← stringM (s.src.length + 2) s
      match t.2 with
      | some v => some (t.1, v)
      | none => read fuel t.1
    else if r = 96 then quoteWrapM fuel true s
    else if r = 44 then unquoteM fuel s
    else if r = 35 then do
      let t ← dispatchRun fuel s
      match t.2 with
      | some v => some (t.1, v)
      | none => read fuel t.1
    else if isDigitRune r then readNumber (s.src.length + 2) s
    else if validRune r then readSymbol (s.src.length + 2) s
    else
      let s := { s with errors := s.errors ++ [(s.offset, "invalid rune")] }
      read fuel (nextRune s)

/-- The element loop of `ReadDelimitedList` (`reader/reader.go`, lines
366–385); `NReverse` on the freshly built list is list reversal, and the
form-range recording is omitted. -/
def readDelimitedLoop : Nat → Int → Nat → List RVal → RState →
    Option (RState × RVal)
  | 0, _, _, _, _ => none
  | fuel + 1, delimiter, offset, acc, s => do
    let s ← skipSpace (s.src.length + 2) s
    if s.ch = delimiter then
      some (nextRune s, RVal.listV acc.reverse)
    else do
      let (s, el) ← read fuel s
      match el with
      | RVal.eofV =>
        some ({ s with errors := s.errors ++ [(offset, "incomplete list")] },
          RVal.badFormV offset s.offset)
      | el => readDelimitedLoop fuel delimiter offset (el :: acc) s

/-- `ReadDelimitedList` (via `listMacro`). -/
def readDelimitedList : Nat → Int → RState → Option (RState × RVal)
  | 0, _, _ => none
  | fuel + 1, delimiter, s =>
    readDelimitedLoop fuel delimiter s.offset [] (nextRune s)

/-- `quoteMacro` and `quasiquoteMacro` (`reader/reader.go`, lines
398–422). -/
def quoteWrapM : Nat → Bool → RState → Option (RState × RVal)
  | 0, _, _ => none
  | fuel + 1, quasi, s => do
    let offset := s.offset
    let s := nextRune s
    let (s, el) ← read fuel s
    match el with
    | RVal.eofV =>
      some ({ s with errors := s.errors ++
        [(offset, if quasi then "incomplete quasiquote" else "incomplete quote")] },
        RVal.badFormV offset s.offset)
    | el =>
      some (s, RVal.listV [if quasi then quasiquoteSymV else quoteSymV, el])

/-- `unquoteMacro` (`reader/reader.go`, lines 424–444). -/
def unquoteM : Nat → RState → Option (RState × RVal)
  | 0, _ => none
  | fuel + 1, s => do
    let offset := s.offset
    let s := nextRune s
    let (splicing, s) := if s.ch = 64 then (true, nextRune s) else (false, s)
    let (s, el) ← read fuel s
    match el with
    | RVal.eofV =>
      some ({ s with errors := s.errors ++ [(offset, "incomplete unquote")] },
        RVal.badFormV offset s.offset)
    | el =>
      some (s, RVal.listV
        [if splicing then unquoteSplicingSymV else unquoteSymV, el])

/-- `formCommentMacro` (`reader/reader.go`, lines 668–675). -/
def formCommentM : Nat → Nat → RState → Option (RState × Option RVal)
  | 0, _, _ => none
  | fuel + 1, dispatchRuneOffset, s => do
    let s := nextRune s
    let (s, v) ← read fuel s
    match v with
    | RVal.eofV =>
      some ({ s with errors := s.errors ++
        [(dispatchRuneOffset, "incomplete form comment")] },
        some (RVal.badFormV dispatchRuneOffset s.offset))
    | _ => some (s, none)

/-- The dispatching macro `init()` installs for `#`
(`dispatchMacroReader`, `reader/reader.go`, lines 704–714), with the
standard sub-table. -/
def dispatchRun : Nat → RState → Option (RState × Option RVal)
  | 0, _ => none
  | fuel + 1, s => do
    let offset := s.offset
    let s := nextRune s
    let sub := s.ch
    if sub = 96 then rawStringM (s.src.length + 2) offset s
    else if sub = 92 then some (runeM offset s)
    else if sub = 59 then formCommentM fuel offset s
    else if sub = 124 then blockCommentM (s.src.length + 2) 35 offset s
    else
      let s := { s with errors := s.errors ++
        [(offset, "invalid dispatch macro rune")] }
      some (s, some (RVal.badFormV offset s.offset))

end

/-- Verification driver: read values until `Read` returns the EOF
sentinel, collecting them in order. -/
def readAll : Nat → RState → List RVal → Option (RState × List RVal)
  | 0, _, _ => none
  | fuel + 1, s, acc => do
    let (s, v) ← read fuel s
    match v with
    | RVal.eofV => some (s, acc)
    | v => readAll fuel s (acc ++ [v])

/-- ASCII source text to bytes (every input the claims touch is ASCII,
where UTF-8 bytes and code points coincide). -/
def strBytes (s : String) : List Nat := s.data.map Char.toNat

/-- C1: the claim is refuted by the code, and the code contradicts its
own documentation ("Number syntax is the same as in Go"): `isNumRune`
omits the hexadecimal digits `a…f A…F` (while accepting the hexadecimal
exponent letters `p P`), so reading the claim's source
`42 0b101 0xBad_Face 1.5e2 0x1p-2 3i` yields SEVEN values with no
errors — the big integers 42, 5 and 11 (only `0xB` of `0xBad_Face` is
consumed as a number), the symbol `ad_Face`, the floats 150.0 and 0.25,
and the complex 0+3i — instead of the claimed six with `0xBadFace` =
195951310. -/
theorem numeric_example_behaviour :
    isNumRune 97 = false ∧ isNumRune 112 = true ∧
    (readAll 200 (newReaderState
        (strBytes "42 0b101 0xBad_Face 1.5e2 0x1p-2 3i")) []).map
        (fun t => (t.2, t.1.errors)) =
      some ([RVal.intV 42, RVal.intV 5, RVal.intV 11,
             RVal.symV (Intern "" "ad_Face"), RVal.floatV 150,
             RVal.floatV (mkRat 1 4), RVal.cplxV 3], []) :=
  ⟨rfl, rfl, rfl⟩

/-- C2, counterexample: the source `#|#|` contains two unbalanced `#|`
delimiters but reading it records exactly ONE error (at the offset of
the outermost `#|`), and the source `|#` contains one unbalanced `|#`
but reading it records NO error — the reader consumes `|#` as the
symbol `|#`.  Both refute "exactly k errors, each at the position of an
unmatched delimiter". -/
theorem block_comment_counterexample :
    (readAll 50 (newReaderState (strBytes "#|#|")) []).map
        (fun t => (t.2, t.1.errors)) =
      some ([RVal.badFormV 0 4], [(0, "incomplete block comment")]) ∧
    (readAll 50 (newReaderState (strBytes "|#")) []).map
        (fun t => (t.2, t.1.errors)) =
      some ([RVal.symV (Intern "" "|#")], []) :=
  ⟨rfl, rfl⟩

/-- A source of non-NUL ASCII bytes, over which `nextRune` never records
scan errors. -/
def cleanSrc (src : List Nat) : Prop := ∀ b ∈ src, 1 ≤ b ∧ b < 0x80

theorem nextRune_clean (s : RState) (h : cleanSrc s.src) :
    (nextRune s).errors = s.errors ∧ (nextRune s).src = s.src := by
  simp only [nextRune]
  by_cases hlt : s.rdOffset < s.src.length
  · rw [if_pos hlt]
    have hmem : s.src.getD s.rdOffset 0 ∈ s.src := by
      rw [List.getD_eq_getD_get?]
      cases hg : s.src.get? s.rdOffset with
      | none => exact absurd (List.get?_eq_none.mp hg) (by omega)
      | some a => simpa using List.get?_mem hg
    obtain ⟨h1, h2⟩ := h _ hmem
    rw [if_neg (by omega)]
    rw [if_neg (by omega)]
    exact ⟨rfl, rfl⟩
  · rw [if_neg hlt]
    exact ⟨rfl, rfl⟩

/-- C2 (amended): inside `blockCommentMacro` the nesting level counts
down only at the return point (it never goes negative), and the macro's
scanning loop records at most one error — none when the comment closes
(it returns as soon as the level reaches zero), and exactly one
`incomplete block comment` error at the dispatch-rune offset when the
input ends first, regardless of how many unmatched `#|` openers it
contains; an unmatched `|#` outside any comment is read as the symbol
`|#` with no error recorded. -/
theorem block_comment_error_discipline :
    (∀ (c1 c2 : Int) (off : Nat) (fuel level : Nat) (s s' : RState)
        (v : Option RVal), cleanSrc s.src →
      blockCommentLoop c1 c2 off fuel level s = some (s', v) →
      (v = none ∧ s'.errors = s.errors) ∨
      (s'.errors = s.errors ++ [(off, "incomplete block comment")] ∧
        v = some (RVal.badFormV off s'.offset))) ∧
    (readAll 50 (newReaderState (strBytes "|#")) []).map
        (fun t => (t.2, t.1.errors)) =
      some ([RVal.symV (Intern "" "|#")], []) := by
  constructor
  · intro c1 c2 off fuel
    induction fuel with
    | zero => intro level s s' v _ h; simp [blockCommentLoop] at h
    | succ fuel ih =>
      intro level s s' v hclean h
      simp only [blockCommentLoop] at h
      by_cases h1 : s.ch = -1
      · rw [if_pos h1, Option.some.injEq, Prod.mk.injEq] at h
        obtain ⟨hs, hv⟩ := h
        right
        rw [← hs, ← hv]
        exact ⟨rfl, rfl⟩
      · rw [if_neg h1] at h
        have hcl1 : cleanSrc (nextRune s).src := by
          rw [(nextRune_clean s hclean).2]; exact hclean
        by_cases h2 : s.ch = c1
        · rw [if_pos h2] at h
          by_cases h3 : (nextRune s).ch = c2
          · rw [if_pos h3] at h
            have hcl2 : cleanSrc (nextRune (nextRune s)).src := by
              rw [(nextRune_clean _ hcl1).2]; exact hcl1
            have := ih (level + 1) (nextRune (nextRune s)) s' v hcl2 h
            rcases this with ⟨hv, he⟩ | ⟨he, hv⟩
            · left
              exact ⟨hv, by rw [he, (nextRune_clean _ hcl1).1,
                (nextRune_clean _ hclean).1]⟩
            · right
              exact ⟨by rw [he, (nextRune_clean _ hcl1).1,
                (nextRune_clean _ hclean).1], hv⟩
          · rw [if_neg h3] at h
            have := ih level (nextRune s) s' v hcl1 h
            rcases this with ⟨hv, he⟩ | ⟨he, hv⟩
            · left
              exact ⟨hv, by rw [he, (nextRune_clean _ hclean).1]⟩
            · right
              exact ⟨by rw [he, (nextRune_clean _ hclean).1], hv⟩
        · rw [if_neg h2] at h
          by_cases h4 : s.ch = c2
          · rw [if_pos h4] at h
            by_cases h5 : (nextRune s).ch = c1
            · rw [if_pos h5] at h
              by_cases h6 : level - 1 = 0
              · rw [if_pos h6, Option.some.injEq, Prod.mk.injEq] at h
                obtain ⟨hs, hv⟩ := h
                left
                refine ⟨hv.symm, ?_⟩
                rw [← hs, (nextRune_clean _ hcl1).1, (nextRune_clean _ hclean).1]
              · rw [if_neg h6] at h
                have hcl2 : cleanSrc (nextRune (nextRune s)).src := by
                  rw [(nextRune_clean _ hcl1).2]; exact hcl1
                have := ih (level - 1) (nextRune (nextRune s)) s' v hcl2 h
                rcases this with ⟨hv, he⟩ | ⟨he, hv⟩
                · left
                  exact ⟨hv, by rw [he, (nextRune_clean _ hcl1).1,
                    (nextRune_clean _ hclean).1]⟩
                · right
                  exact ⟨by rw [he, (nextRune_clean _ hcl1).1,
                    (nextRune_clean _ hclean).1], hv⟩
            · rw [if_neg h5] at h
              have := ih level (nextRune s) s' v hcl1 h
              rcases this with ⟨hv, he⟩ | ⟨he, hv⟩
              · left
                exact ⟨hv, by rw [he, (nextRune_clean _ hclean).1]⟩
              · right
                exact ⟨by rw [he, (nextRune_clean _ hclean).1], hv⟩
          · rw [if_neg h4] at h
            have := ih level (nextRune s) s' v hcl1 h
            rcases this with ⟨hv, he⟩ | ⟨he, hv⟩
            · left
              exact ⟨hv, by rw [he, (nextRune_clean _ hclean).1]⟩
            · right
              exact ⟨by rw [he, (nextRune_clean _ hclean).1], hv⟩
  · rfl

/-- Witness for `block_comment_error_discipline`: the loop on the clean
source `#|x` (already positioned past the opener) with the input ending
first. -/
theorem block_comment_error_discipline_witness :
    cleanSrc (RState.mk (strBytes "x") 0 1 (-1) [] ⟨[], []⟩).src ∧
    blockCommentLoop 35 124 0 3 1 (RState.mk (strBytes "x") 0 1 (-1) [] ⟨[], []⟩) =
      some (RState.mk (strBytes "x") 0 1 (-1)
        [(0, "incomplete block comment")] ⟨[], []⟩,
        some (RVal.badFormV 0 0)) ∧
    (((some (RVal.badFormV 0 0) : Option RVal) = none ∧
      (RState.mk (strBytes "x") 0 1 (-1)
        [(0, "incomplete block comment")] ⟨[], []⟩).errors =
        (RState.mk (strBytes "x") 0 1 (-1) [] ⟨[], []⟩).errors) ∨
    ((RState.mk (strBytes "x") 0 1 (-1)
        [(0, "incomplete block comment")] ⟨[], []⟩).errors =
        (RState.mk (strBytes "x") 0 1 (-1) [] ⟨[], []⟩).errors ++
          [(0, "incomplete block comment")] ∧
      (some (RVal.badFormV 0 0) : Option RVal) = some (RVal.badFormV 0
        (RState.mk (strBytes "x") 0 1 (-1)
          [(0, "incomplete block comment")] ⟨[], []⟩).offset))) :=
  ⟨by intro b hb; simp [strBytes] at hb; omega, rfl,
    block_comment_error_discipline.1 35 124 0 3 1 _ _ _
      (by intro b hb; simp [strBytes] at hb; omega) rfl⟩

theorem utf8Decode_bom (rest : List Nat) :
    utf8DecodeRune (0xEF :: 0xBB :: 0xBF :: rest) = (0xFEFF, 3) := by
  norm_num [utf8DecodeRune]

/-- C10: `NewReader` consumes a byte order mark appearing as the very
first code point without recording any error (scanning then continues
after it), while `NextRune` records an `illegal byte order mark` error
for a BOM whose byte offset is greater than zero. -/
theorem bom_first_silent_later_error :
    (∀ rest : List Nat,
      (nextRune (initState (0xEF :: 0xBB :: 0xBF :: rest))).errors = [] ∧
      (nextRune (initState (0xEF :: 0xBB :: 0xBF :: rest))).ch = 0xFEFF ∧
      newReaderState (0xEF :: 0xBB :: 0xBF :: rest) =
        nextRune (nextRune (initState (0xEF :: 0xBB :: 0xBF :: rest)))) ∧
    (∀ (s : RState) (rest : List Nat), s.rdOffset > 0 →
      s.src.drop s.rdOffset = 0xEF :: 0xBB :: 0xBF :: rest →
      (nextRune s).errors = s.errors ++
        [(s.rdOffset, "illegal byte order mark")] ∧
      (nextRune s).ch = 0xFEFF) := by
  constructor
  · intro rest
    exact ⟨rfl, rfl, rfl⟩
  · intro s rest hpos hdrop
    have hlt : s.rdOffset < s.src.length := by
      by_contra hge
      push_neg at hge
      have : s.src.drop s.rdOffset = [] := List.drop_eq_nil_of_le hge
      rw [this] at hdrop
      exact absurd hdrop (by simp)
    have hb : s.src.getD s.rdOffset 0 = 0xEF := by
      have h0 : (s.src.drop s.rdOffset).getD 0 0 = 0xEF := by
        rw [hdrop]; rfl
      rw [← h0]
      rw [List.getD_eq_getD_get?, List.getD_eq_getD_get?]
      rw [List.get?_drop, Nat.add_zero]
    simp only [nextRune]
    rw [if_pos hlt, hb]
    rw [if_neg (by norm_num)]
    rw [if_pos (by norm_num)]
    rw [hdrop, utf8Decode_bom]
    constructor <;> simp [hpos]

/-- Witness for `bom_first_silent_later_error`: a BOM at byte offset 1
after an ASCII byte. -/
theorem bom_first_silent_later_error_witness :
    (RState.mk [0x41, 0xEF, 0xBB, 0xBF] 0 1 0x41 [] ⟨[], []⟩).rdOffset > 0 ∧
    (RState.mk [0x41, 0xEF, 0xBB, 0xBF] 0 1 0x41 [] ⟨[], []⟩).src.drop 1 =
      0xEF :: 0xBB :: 0xBF :: [] ∧
    (nextRune (RState.mk [0x41, 0xEF, 0xBB, 0xBF] 0 1 0x41 [] ⟨[], []⟩)).errors =
      (RState.mk [0x41, 0xEF, 0xBB, 0xBF] 0 1 0x41 [] ⟨[], []⟩).errors ++
        [((RState.mk [0x41, 0xEF, 0xBB, 0xBF] 0 1 0x41 [] ⟨[], []⟩).rdOffset,
          "illegal byte order mark")] ∧
    (nextRune (RState.mk [0x41, 0xEF, 0xBB, 0xBF] 0 1 0x41 [] ⟨[], []⟩)).ch =
      0xFEFF :=
  ⟨by norm_num, rfl,
    (bom_first_silent_later_error.2
      (RState.mk [0x41, 0xEF, 0xBB, 0xBF] 0 1 0x41 [] ⟨[], []⟩) []
      (by norm_num) rfl).1,
    (bom_first_silent_later_error.2
      (RState.mk [0x41, 0xEF, 0xBB, 0xBF] 0 1 0x41 [] ⟨[], []⟩) []
      (by norm_num) rfl).2⟩

end Slick
